import Mathlib

/-!
# ljgade/requests: the request builder, body encoder and cookie merge

A shallow embedding of `request.go`, `methods.go`, `session.go` and `utils.go`.

Conventions of the embedding.

* A Go `string` is a Lean `String`; a Go `[]byte` is a `List UInt8`, and the
  conversion `[]byte(s)` is the UTF-8 encoding `bytesOf s`.  A nil slice and an
  empty slice are both `[]` where the code only looks at `len` and the contents.
* A Go `map[string]T` is a `GoMap T`: an association list without repeated
  keys.  `m[k] = v` is `AList.insert`, `delete(m, k)` is `AList.erase`,
  `len(m)` is the length of the entry list, and `for k, v := range m` walks the
  entry list.  Go leaves the iteration order unspecified; every order is the
  entry list of some `GoMap`, so a statement about all maps covers all orders.
* The Go standard library is not part of the repository.  What the repository
  calls from it and what no claim depends on in detail (`url.Parse`,
  `URL.Query`, the validation done by `http.NewRequest`, the byte layout of
  `mime/multipart`) is a field of `Lib`; the general theorems hold for every
  `Lib`.  `goLib` is a reference instance used to evaluate concrete inputs.
-/

namespace requests

/-- Go `map[string]T`. -/
abbrev GoMap (β : Type) := AList (fun _ : String => β)

/-- Go `[]byte`. -/
abbrev Bytes := List UInt8

/-- The Go conversion `[]byte(s)`: the UTF-8 bytes of `s`. -/
def bytesOf (s : String) : Bytes := s.data.flatMap String.utf8EncodeChar

/-! ## `net/url` -/

namespace url

/-- The fields of `url.URL` that `url.Parse` fills in. -/
structure URL where
  Scheme : String
  Opaque : String
  Host : String
  Path : String
  RawQuery : String
  Fragment : String
  deriving DecidableEq

/-- The type `url.Values`, a `map[string][]string`. -/
abbrev Values := GoMap (List String)

/-- Go `func (v Values) Add(key, value string)`: `v[key] = append(v[key], value)`. -/
def Values.Add (v : Values) (key value : String) : Values :=
  v.insert key ((v.lookup key).getD [] ++ [value])

/-- The unreserved bytes, which `QueryEscape` copies: ASCII letters, digits and `-_.~`. -/
def unreserved (c : Char) : Bool :=
  ('a'.toNat ≤ c.toNat && c.toNat ≤ 'z'.toNat) || ('A'.toNat ≤ c.toNat && c.toNat ≤ 'Z'.toNat) ||
  ('0'.toNat ≤ c.toNat && c.toNat ≤ '9'.toNat) || c == '-' || c == '_' || c == '.' || c == '~'

/-- One digit of `upperhex = "0123456789ABCDEF"`. -/
def upperhex (n : Nat) : Char :=
  if n < 10 then Char.ofNat (48 + n) else Char.ofNat (55 + n)

/-- The escape `%XX` of one byte. -/
def escapeByte (b : UInt8) : List Char :=
  ['%', upperhex (b.toNat / 16), upperhex (b.toNat % 16)]

/-- What `QueryEscape` writes for one character of the input: an unreserved
character is copied, a space becomes `+`, and every other byte of its UTF-8
encoding becomes `%XX`. -/
def escapeChar (c : Char) : List Char :=
  if unreserved c then [c]
  else if c = ' ' then ['+']
  else (String.utf8EncodeChar c).flatMap escapeByte

/-- Go `url.QueryEscape`. -/
def QueryEscape (s : String) : String := String.mk (s.data.flatMap escapeChar)

/-- Go compares strings bytewise; on UTF-8 text that is the lexicographic order
of the code points. -/
def lexLe : List Char → List Char → Bool
  | [], _ => true
  | _ :: _, [] => false
  | a :: as, b :: bs =>
    if a.toNat < b.toNat then true
    else if b.toNat < a.toNat then false
    else lexLe as bs

/-- The order `sort.Strings` sorts by. -/
def strLe (a b : String) : Prop := lexLe a.data b.data = true

instance : DecidableRel strLe := fun a b => inferInstanceAs (Decidable (lexLe a.data b.data = true))

/-- The call `sort.Strings(keys)`. -/
def sortStrings (keys : List String) : List String := keys.insertionSort strLe

/-- The inner statement of `Values.Encode`: write `&` unless the buffer is empty,
then `key=value`, both escaped. -/
def Values.encodePair (buf : String) (keyEscaped value : String) : String :=
  (if buf.length > 0 then buf ++ "&" else buf) ++ keyEscaped ++ "=" ++ QueryEscape value

/-- Go `func (v Values) Encode() string`: the keys are collected and sorted, and
for each key in that order each of its values is written as `key=value`. -/
def Values.Encode (v : Values) : String :=
  if v.entries.length = 0 then ""
  else
    (sortStrings v.keys).foldl
      (fun buf k => ((v.lookup k).getD []).foldl (fun buf x => Values.encodePair buf (QueryEscape k) x) buf)
      ""

end url

/-! ## `net/http` and `mime/multipart` -/

namespace http

/-- The fields of `http.Cookie` that a jar reports and `setCookies` writes. -/
structure Cookie where
  Name : String
  Value : String
  Path : String := ""
  Domain : String := ""
  MaxAge : Int := 0
  Secure : Bool := false
  HttpOnly : Bool := false
  deriving DecidableEq

/-- A `*http.Request` as `http.NewRequest` leaves it: the method, the URL string
it was given, and the body reader (`none` for a nil body, otherwise the bytes
the reader yields). -/
structure Request where
  Method : String
  URL : String
  Body : Option Bytes
  deriving DecidableEq

end http

namespace multipart

/-- One part written through a `multipart.Writer`. -/
inductive Part where
  | field (fieldname value : String)
  | file (fieldname filename : String) (data : Bytes)
  deriving DecidableEq

/-- A `multipart.Writer` over a `bytes.Buffer`: its boundary and the parts
written so far.  Writing to a `bytes.Buffer` does not fail, so no method of the
writer returns an error here. -/
structure Writer where
  boundary : String
  parts : List Part
  closed : Bool
  deriving DecidableEq

/-- Go `multipart.NewWriter`; the boundary is chosen at random by the library. -/
def NewWriter (boundary : String) : Writer := ⟨boundary, [], false⟩

/-- Go `func (w *Writer) WriteField(fieldname, value string) error`. -/
def Writer.WriteField (w : Writer) (fieldname value : String) : Writer × Option String :=
  ({ w with parts := w.parts ++ [Part.field fieldname value] }, none)

/-- The call `CreateFormFile(fieldname, filename)` followed by `part.Write(data)`. -/
def Writer.CreateFormFile (w : Writer) (fieldname filename : String) (data : Bytes) :
    Writer × Option String :=
  ({ w with parts := w.parts ++ [Part.file fieldname filename data] }, none)

/-- Go `func (w *Writer) Close() error`. -/
def Writer.Close (w : Writer) : Writer × Option String := ({ w with closed := true }, none)

/-- The characters that make `FormDataContentType` quote the boundary. -/
def tspecials : List Char :=
  ['(', ')', '<', '>', '@', ',', ';', ':', Char.ofNat 92, Char.ofNat 34, '/', '[', ']', '?', '=', ' ']

/-- Go `func (w *Writer) FormDataContentType() string`. -/
def Writer.FormDataContentType (w : Writer) : String :=
  let b := w.boundary
  let b := if b.data.any (fun c => tspecials.contains c) then "\x22" ++ b ++ "\x22" else b
  "multipart/form-data; boundary=" ++ b

end multipart

/-- The standard-library behaviour the repository relies on without fixing it. -/
structure Lib where
  /-- Go `url.Parse`. -/
  urlParse : String → Except String url.URL
  /-- Go `func (u *URL) Query() Values`. -/
  urlQuery : url.URL → url.Values
  /-- The error of `http.NewRequest(method, url, body)`, if it reports one; it
  depends on the method and the URL only. -/
  httpNewRequestErr : String → String → Option String
  /-- The bytes a closed `multipart.Writer` with this boundary has written for these parts. -/
  multipartBytes : String → List multipart.Part → Bytes

/-- Go `http.NewRequest(method, urlStr, body)`, as the Go pair `(req, err)`. -/
def http.NewRequest (lib : Lib) (method urlStr : String) (body : Option Bytes) :
    Option http.Request × Option String :=
  match lib.httpNewRequestErr method urlStr with
  | some err => (none, some err)
  | none => (some ⟨method, urlStr, body⟩, none)

/-! ## `session.go` -/

/-- A `http.CookieJar`, observed through `Cookies(u)`. -/
structure CookieJar where
  Cookies : url.URL → List http.Cookie

/-- The struct `session`: the jar of the embedded `*http.Client` (`none` for a nil
`Jar`) and the cookie overrides. -/
structure session where
  Jar : Option CookieJar
  cookies : GoMap String

/-- Go `NewSession`: a client with a fresh, empty cookie jar and no overrides. -/
def NewSession : session := ⟨some ⟨fun _ => []⟩, ∅⟩

/-- Go `func (this *session) SetCookies(cookies map[string]string) Session`. -/
def session.SetCookies (this : session) (cookies : GoMap String) : session :=
  { this with cookies := cookies.entries.foldl (fun m kv => m.insert kv.1 kv.2) this.cookies }

/-- Go `func (this *session) Cookies() map[string]string`. -/
def session.Cookies (this : session) : GoMap String :=
  this.cookies.entries.foldl (fun m kv => m.insert kv.1 kv.2) ∅

/-- The body of the outer loop of `setCookies` for one override `name, value`:
search the list for a cookie of that name and append a new cookie when none is found. -/
def setCookiesStep (cookies : List http.Cookie) (name value : String) : List http.Cookie :=
  let found := cookies.any (fun cookie => cookie.Name == name)
  if !found then cookies ++ [{ Name := name, Value := value }] else cookies

/-- The loop `for name, value := range this.cookies` of `setCookies`, the
overrides being visited in the order of `visit`. -/
def setCookiesLoop (cookies : List http.Cookie) (visit : List (Σ _ : String, String)) :
    List http.Cookie :=
  visit.foldl (fun cookies kv => setCookiesStep cookies kv.1 kv.2) cookies

/-- Go `func (this *session) setCookies(URL *url.URL)`.  The result is the argument
list of the call `this.Jar.SetCookies(URL, cookies)`, and `none` when the session
has no jar and the call is not made. -/
def session.setCookies (this : session) (URL : url.URL) : Option (List http.Cookie) :=
  match this.Jar with
  | none => none
  | some jar => some (setCookiesLoop (jar.Cookies URL) this.cookies.entries)

/-- The variable `sessionWithoutCookies` as `init` sets it: no jar, no overrides. -/
def sessionWithoutCookies : session := ⟨none, ∅⟩

/-! ## `request.go` -/

/-- The struct `formFile`. -/
structure formFile where
  filename : String
  data : Bytes
  deriving DecidableEq

/-- The struct `request`.  The embedded `*session` is the field `session`. -/
structure request where
  session : session
  method : String
  URL : String
  headers : GoMap (List String)
  isJSON : Bool
  body : Bytes
  formParams : GoMap (List String)
  queryParams : GoMap (List String)
  files : GoMap formFile

/-- The error text of `parseURL`. -/
def errOnlyHTTP : String := "[package requests] only HTTP and HTTPS are accepted"

/-- Go `func parseURL(urlPath string) (URL *url.URL, err error)`. -/
def parseURL (lib : Lib) (urlPath : String) : Except String url.URL :=
  match lib.urlParse urlPath with
  | .error err => .error err
  | .ok URL =>
    if URL.Scheme ≠ "http" ∧ URL.Scheme ≠ "https" then
      let urlPath := "http://" ++ urlPath
      match lib.urlParse urlPath with
      | .error err => .error err
      | .ok URL =>
        if URL.Scheme ≠ "http" ∧ URL.Scheme ≠ "https" then .error errOnlyHTTP
        else .ok URL
    else .ok URL

/-- The loop `for key, values := range m { dst[key] = values }` that `newRequest`
and the accessors run into a fresh map. -/
def copyMap (m : GoMap (List String)) : GoMap (List String) :=
  m.entries.foldl (fun dst kv => dst.insert kv.1 kv.2) ∅

/-- Go `func newRequest(method string, urlPath string, s *session) (Request, error)`. -/
def newRequest (lib : Lib) (method urlPath : String) (s : session) : Except String request :=
  match parseURL lib urlPath with
  | .error err => .error err
  | .ok URL =>
    let queryParams := copyMap (lib.urlQuery URL)
    let urlPath := URL.Scheme ++ "://" ++ URL.Host ++ URL.Path
    .ok { session := s, method := method, URL := urlPath, headers := ∅, isJSON := false,
          body := [], formParams := ∅, queryParams := queryParams, files := ∅ }

/-- Go `func (this *request) SetHeader(key string, values ...string) Request`. -/
def request.SetHeader (this : request) (key : String) (values : List String) : request :=
  if values.length > 0 then { this with headers := this.headers.insert key values }
  else { this with headers := this.headers.erase key }

/-- Go `func (this *request) Headers() map[string][]string`. -/
def request.Headers (this : request) : GoMap (List String) := copyMap this.headers

/-- Go `func (this *request) SetQueryParam(key string, values ...string) Request`. -/
def request.SetQueryParam (this : request) (key : String) (values : List String) : request :=
  if values.length > 0 then { this with queryParams := this.queryParams.insert key values }
  else { this with queryParams := this.queryParams.erase key }

/-- Go `func (this *request) QueryParams() map[string][]string`. -/
def request.QueryParams (this : request) : GoMap (List String) := copyMap this.queryParams

/-- Go `func parseParams(params map[string][]string) url.Values` of `utils.go`. -/
def parseParams (params : GoMap (List String)) : url.Values :=
  params.entries.foldl (fun v kv => kv.2.foldl (fun v value => url.Values.Add v kv.1 value) v) ∅

/-- Go `func (this *request) UrlPath() string`. -/
def request.UrlPath (this : request) : String :=
  if this.queryParams.entries.length > 0 then
    this.URL ++ "?" ++ url.Values.Encode (parseParams this.queryParams)
  else this.URL

/-- Go `func (this *request) SetJSON(json string) Request`. -/
def request.SetJSON (this : request) (json : String) : request :=
  { this with isJSON := true, body := bytesOf json }

/-- Go `func (this *request) SetRawBody(body []byte) Request`. -/
def request.SetRawBody (this : request) (body : Bytes) : request :=
  { this with isJSON := false, body := body }

/-- Go `func (this *request) SetFormParam(key string, values ...string) Request`. -/
def request.SetFormParam (this : request) (key : String) (values : List String) : request :=
  if values.length > 0 then { this with formParams := this.formParams.insert key values }
  else { this with formParams := this.formParams.erase key }

/-- Go `func (this *request) FormParams() map[string][]string`; the loop of the
source ranges over `this.queryParams`. -/
def request.FormParams (this : request) : GoMap (List String) := copyMap this.queryParams

/-- Go `func (this *request) AddFile(fieldname string, filename string, data []byte) Request`;
`data` is `none` for a nil slice. -/
def request.AddFile (this : request) (fieldname filename : String) (data : Option Bytes) : request :=
  match data with
  | some d =>
    if fieldname ≠ "" ∧ filename ≠ "" then
      { this with files := this.files.insert fieldname ⟨filename, d⟩ }
    else this
  | none => this

/-- What a call of `parseBody` leaves: the receiver, whose headers it may have
changed, and the returned pair `(req, err)`. -/
structure parseBodyResult where
  this : request
  req : Option http.Request
  err : Option String

/-- The loop `for fieldname, values := range this.formParams` of the multipart
branch.  `none` is the run-time panic of `values[0]` on an empty slice; an error
of `WriteField` leaves the loop with `(w, some err)`. -/
def writeFields : multipart.Writer → List (Σ _ : String, List String) →
    Option (multipart.Writer × Option String)
  | w, [] => some (w, none)
  | w, ⟨fieldname, values⟩ :: rest =>
    match values with
    | [] => none
    | v0 :: _ =>
      match w.WriteField fieldname v0 with
      | (w, some err) => some (w, some err)
      | (w, none) => writeFields w rest

/-- The loop `for fieldname, file := range this.files` of the multipart branch. -/
def writeFiles : multipart.Writer → List (Σ _ : String, formFile) → multipart.Writer × Option String
  | w, [] => (w, none)
  | w, ⟨fieldname, file⟩ :: rest =>
    match w.CreateFormFile fieldname file.filename file.data with
    | (w, some err) => (w, some err)
    | (w, none) => writeFiles w rest

/-- Go `func (this *request) parseBody() (req *http.Request, err error)`.
`boundary` is the boundary `multipart.NewWriter` draws; the result is `none`
when the call panics. -/
def request.parseBody (lib : Lib) (boundary : String) (this : request) : Option parseBodyResult :=
  -- GET and TRACE request should not have a message body
  let r0 : Option http.Request × Option String :=
    if this.method = "GET" ∨ this.method = "TRACE" then
      http.NewRequest lib this.method this.UrlPath none
    else (none, none)
  -- Process message body
  if this.body.length > 0 then
    if this.isJSON then
      let this := { this with headers := this.headers.insert "Content-Type" ["application/json"] }
      let r := http.NewRequest lib this.method this.UrlPath (some this.body)
      some ⟨this, r.1, r.2⟩
    else
      let r := http.NewRequest lib this.method this.UrlPath (some this.body)
      some ⟨this, r.1, r.2⟩
  else if this.files.entries.length > 0 then
    -- multipart
    let writer := multipart.NewWriter boundary
    match writeFields writer this.formParams.entries with
    | none => none
    | some (_, some err) => some ⟨this, r0.1, some err⟩
    | some (writer, none) =>
      match writeFiles writer this.files.entries with
      | (_, some err) => some ⟨this, r0.1, some err⟩
      | (writer, none) =>
        match writer.Close with
        | (_, some err) => some ⟨this, r0.1, some err⟩
        | (writer, none) =>
          let this := { this with headers := this.headers.insert "Content-Type" [writer.FormDataContentType] }
          let r := http.NewRequest lib this.method this.UrlPath
            (some (lib.multipartBytes writer.boundary writer.parts))
          some ⟨this, r.1, r.2⟩
  else
    let this := { this with headers := this.headers.insert "Content-Type" ["application/x-www-form-urlencoded"] }
    let r := http.NewRequest lib this.method this.UrlPath
      (some (bytesOf (url.Values.Encode (parseParams this.formParams))))
    some ⟨this, r.1, r.2⟩

/-! ## `methods.go` and the free functions of `utils.go` -/

/-- The error text of `Method`. -/
def errMethod : String := "method not supported"

/-- Go `func (this *session) Method(method string, urlPath string) (Request, error)`. -/
def session.Method (lib : Lib) (this : session) (method urlPath : String) : Except String request :=
  if method ≠ "GET" ∧ method ≠ "POST" ∧ method ≠ "PUT" ∧ method ≠ "DELETE" ∧
      method ≠ "HEAD" ∧ method ≠ "OPTIONS" ∧ method ≠ "PATCH" then
    .error errMethod
  else newRequest lib method urlPath this

/-- Go `func (this *session) Get(urlPath string) (Request, error)`. -/
def session.Get (lib : Lib) (this : session) (urlPath : String) : Except String request :=
  newRequest lib "GET" urlPath this

/-- Go `func (this *session) Post(urlPath string) (Request, error)`. -/
def session.Post (lib : Lib) (this : session) (urlPath : String) : Except String request :=
  newRequest lib "POST" urlPath this

/-- Go `func (this *session) Put(urlPath string) (Request, error)`. -/
def session.Put (lib : Lib) (this : session) (urlPath : String) : Except String request :=
  newRequest lib "PUT" urlPath this

/-- Go `func (this *session) Delete(urlPath string) (Request, error)`. -/
def session.Delete (lib : Lib) (this : session) (urlPath : String) : Except String request :=
  newRequest lib "DELETE" urlPath this

/-- Go `func (this *session) Head(urlPath string) (Request, error)`. -/
def session.Head (lib : Lib) (this : session) (urlPath : String) : Except String request :=
  newRequest lib "HEAD" urlPath this

/-- Go `func (this *session) Options(urlPath string) (Request, error)`. -/
def session.Options (lib : Lib) (this : session) (urlPath : String) : Except String request :=
  newRequest lib "OPTIONS" urlPath this

/-- Go `func (this *session) Patch(urlPath string) (Request, error)`; the method
literal of the source is `"TRACE"`. -/
def session.Patch (lib : Lib) (this : session) (urlPath : String) : Except String request :=
  newRequest lib "TRACE" urlPath this

/-- Go `func Method(method string, urlPath string) (Request, error)`. -/
def Method (lib : Lib) (method urlPath : String) : Except String request :=
  if method ≠ "GET" ∧ method ≠ "POST" ∧ method ≠ "PUT" ∧ method ≠ "DELETE" ∧
      method ≠ "HEAD" ∧ method ≠ "OPTIONS" ∧ method ≠ "PATCH" then
    .error errMethod
  else newRequest lib method urlPath sessionWithoutCookies

/-- Go `func Get(urlPath string) (Request, error)`. -/
def Get (lib : Lib) (urlPath : String) : Except String request :=
  newRequest lib "GET" urlPath sessionWithoutCookies

/-- Go `func Post(urlPath string) (Request, error)`. -/
def Post (lib : Lib) (urlPath : String) : Except String request :=
  newRequest lib "POST" urlPath sessionWithoutCookies

/-- Go `func Put(urlPath string) (Request, error)`. -/
def Put (lib : Lib) (urlPath : String) : Except String request :=
  newRequest lib "PUT" urlPath sessionWithoutCookies

/-- Go `func Delete(urlPath string) (Request, error)`. -/
def Delete (lib : Lib) (urlPath : String) : Except String request :=
  newRequest lib "DELETE" urlPath sessionWithoutCookies

/-- Go `func Head(urlPath string) (Request, error)`. -/
def Head (lib : Lib) (urlPath : String) : Except String request :=
  newRequest lib "HEAD" urlPath sessionWithoutCookies

/-- Go `func Options(urlPath string) (Request, error)`. -/
def Options (lib : Lib) (urlPath : String) : Except String request :=
  newRequest lib "OPTIONS" urlPath sessionWithoutCookies

/-- Go `func Patch(urlPath string) (Request, error)`. -/
def Patch (lib : Lib) (urlPath : String) : Except String request :=
  newRequest lib "PATCH" urlPath sessionWithoutCookies

/-! ## `parseHeaders` of `utils.go` -/

/-- The constant `Version`. -/
def Version : String := "1.0"

/-- The type `http.Header`, a `map[string][]string`. -/
abbrev http.Header := GoMap (List String)

/-- Go `func (h Header) Add(key, value string)`: the key is brought into its canonical
form by `canonicalKey` (`textproto.CanonicalMIMEHeaderKey`) and the value is appended to
the list stored under it. -/
def http.Header.Add (canonicalKey : String → String) (h : http.Header) (key value : String) :
    http.Header :=
  h.insert (canonicalKey key) ((h.lookup (canonicalKey key)).getD [] ++ [value])

/-- Go `func parseHeaders(headers map[string][]string) http.Header`. -/
def parseHeaders (canonicalKey : String → String) (headers : GoMap (List String)) : http.Header :=
  let h : http.Header := ∅
  let h := headers.entries.foldl
    (fun h kv => kv.2.foldl (fun h value => http.Header.Add canonicalKey h kv.1 value) h) h
  let hasAccept := (h.lookup "Accept").isSome
  let h := if !hasAccept then http.Header.Add canonicalKey h "Accept" "*/*" else h
  let hasAgent := (h.lookup "User-Agent").isSome
  let h := if !hasAgent then http.Header.Add canonicalKey h "User-Agent" ("go-requests/" ++ Version) else h
  h

/-! ## A reference instance of `Lib`

The functions below follow the Go standard library on inputs without `%`, `@`
and `[`, that is, without percent-escapes, user information and bracketed IPv6
hosts.  They serve to evaluate the code on concrete inputs. -/

namespace url

/-- The answer of the reference functions outside the inputs they cover. -/
def notCovered : String := "reference model: input with %, @ or [ is not covered"

/-- Go `strings.Cut(s, sep)` for a one-byte separator: the text before the first
`sep`, the text after it, and whether `sep` occurs. -/
def cut (sep : Char) : List Char → List Char × List Char × Bool
  | [] => ([], [], false)
  | c :: cs =>
    if c = sep then ([], cs, true)
    else ((c :: (cut sep cs).1), (cut sep cs).2.1, (cut sep cs).2.2)

/-- Go `strings.Split(s, sep)` for a one-byte separator. -/
def splitAt (sep : Char) : List Char → List (List Char)
  | [] => [[]]
  | c :: cs =>
    if c = sep then [] :: splitAt sep cs
    else
      match splitAt sep cs with
      | [] => [[c]]
      | seg :: segs => (c :: seg) :: segs

/-- An ASCII letter. -/
def isLetter (c : Char) : Bool :=
  ('a'.toNat ≤ c.toNat && c.toNat ≤ 'z'.toNat) || ('A'.toNat ≤ c.toNat && c.toNat ≤ 'Z'.toNat)

/-- An ASCII digit. -/
def isDigit (c : Char) : Bool := '0'.toNat ≤ c.toNat && c.toNat ≤ '9'.toNat

/-- The loop of `getScheme`; `seen` holds the bytes before the current one, last first. -/
def getSchemeLoop (rawURL : List Char) : List Char → List Char → Except String (List Char × List Char)
  | _, [] => .ok ([], rawURL)
  | seen, c :: cs =>
    if isLetter c then getSchemeLoop rawURL (c :: seen) cs
    else if isDigit c || c == '+' || c == '-' || c == '.' then
      if seen.isEmpty then .ok ([], rawURL) else getSchemeLoop rawURL (c :: seen) cs
    else if c == ':' then
      if seen.isEmpty then .error "missing protocol scheme" else .ok (seen.reverse, cs)
    else .ok ([], rawURL)

/-- Go `func getScheme(rawURL string) (scheme, path string, err error)`. -/
def getScheme (rawURL : List Char) : Except String (List Char × List Char) :=
  getSchemeLoop rawURL [] rawURL

/-- Go `stringContainsCTLByte`. -/
def containsCTLByte (s : List Char) : Bool := s.any (fun c => c.toNat < 32 || c.toNat == 127)

/-- The ASCII bytes `parseHost` accepts unescaped in a host. -/
def hostByteOK (c : Char) : Bool :=
  isLetter c || isDigit c ||
  ['!', '$', '&', Char.ofNat 39, '(', ')', '*', '+', ',', ';', '=', ':', '[', ']', '<', '>',
    Char.ofNat 34, '-', '_', '.', '~'].contains c

/-- Go `validOptionalPort` applied to the text from the last `:` of the host on. -/
def validPortAfterLastColon (host : List Char) : Bool :=
  match (splitAt ':' host).reverse with
  | [] => true
  | [_] => true
  | port :: _ => port.all isDigit

/-- Go `parseHost` for a host without brackets and percent-escapes. -/
def parseHost (host : List Char) : Except String String :=
  if !validPortAfterLastColon host then .error "invalid port after host"
  else if host.any (fun c => c.toNat < 128 && !hostByteOK c) then .error "invalid character in host name"
  else .ok (String.mk host)

/-- The function `parse(rawURL, false)` of `net/url`, after the fragment is cut off. -/
def parseNoFragment (rawURL : List Char) : Except String URL :=
  if containsCTLByte rawURL then .error "net/url: invalid control character in URL"
  else if rawURL = ['*'] then .ok ⟨"", "", "", "*", "", ""⟩
  else
    match getScheme rawURL with
    | .error err => .error err
    | .ok (scheme, rest) =>
      let Scheme := String.mk (scheme.map Char.toLower)
      let RawQuery := String.mk (cut '?' rest).2.1
      let rest := (cut '?' rest).1
      if rest.head? ≠ some '/' ∧ Scheme ≠ "" then
        -- We consider rootless paths per RFC 3986 as opaque.
        .ok ⟨Scheme, String.mk rest, "", "", RawQuery, ""⟩
      else if rest.head? ≠ some '/' ∧ (cut '/' rest).1.contains ':' then
        .error "first path segment in URL cannot contain colon"
      else if (Scheme ≠ "" ∨ rest.take 3 ≠ ['/', '/', '/']) ∧ rest.take 2 = ['/', '/'] then
        let authority := (cut '/' (rest.drop 2)).1
        let rest := (rest.drop 2).drop authority.length
        match parseHost authority with
        | .error err => .error err
        | .ok Host => .ok ⟨Scheme, "", Host, String.mk rest, RawQuery, ""⟩
      else .ok ⟨Scheme, "", "", String.mk rest, RawQuery, ""⟩

/-- Go `func Parse(rawURL string) (*URL, error)`. -/
def Parse (rawURL : String) : Except String URL :=
  if rawURL.data.any (fun c => c == '%' || c == '@' || c == '[') then .error notCovered
  else
    match parseNoFragment (cut '#' rawURL.data).1 with
    | .error err => .error err
    | .ok u => .ok { u with Fragment := String.mk (cut '#' rawURL.data).2.1 }

/-- Go `QueryUnescape` for text without `%`: every `+` becomes a space. -/
def queryUnescape (s : List Char) : String := String.mk (s.map (fun c => if c = '+' then ' ' else c))

/-- The loop of `parseQuery` over the `&`-separated pieces of the query: a piece
with a `;` and an empty piece are skipped, the others add `key=value`. -/
def parseQuery (m : Values) : List (List Char) → Values
  | [] => m
  | piece :: rest =>
    if piece.contains ';' || piece.isEmpty || piece.contains '%' then parseQuery m rest
    else parseQuery (Values.Add m (queryUnescape (cut '=' piece).1) (queryUnescape (cut '=' piece).2.1)) rest

/-- Go `func (u *URL) Query() Values`, the errors of `ParseQuery` being dropped. -/
def URL.Query (u : URL) : Values := parseQuery ∅ (splitAt '&' u.RawQuery.data)

end url

/-- The bytes `validMethod` of `net/http` accepts in a method name. -/
def http.isTokenByte (c : Char) : Bool :=
  url.isLetter c || url.isDigit c ||
  ['!', '#', '$', '%', '&', Char.ofNat 39, '*', '+', '-', '.', '^', '_', Char.ofNat 96, '|', '~'].contains c

/-- The error `http.NewRequest` reports: an invalid method, or a URL that
`url.Parse` rejects. -/
def http.newRequestErr (method urlStr : String) : Option String :=
  if !(method.data.all http.isTokenByte) then some "net/http: invalid method"
  else
    match url.Parse urlStr with
    | .error err => some err
    | .ok _ => none

/-- The loop of `canonicalMIMEHeaderKey`: a letter is put in upper case at the start
and after a `-`, and in lower case elsewhere. -/
def textproto.canonicalLoop : Bool → List Char → List Char
  | _, [] => []
  | upper, c :: cs =>
    let c := if upper && ('a'.toNat ≤ c.toNat && c.toNat ≤ 'z'.toNat) then Char.ofNat (c.toNat - 32)
      else if !upper && ('A'.toNat ≤ c.toNat && c.toNat ≤ 'Z'.toNat) then Char.ofNat (c.toNat + 32)
      else c
    c :: textproto.canonicalLoop (c == '-') cs

/-- Go `textproto.CanonicalMIMEHeaderKey`: a key with a byte that is not a header field
byte is returned as it is, any other key is canonicalised. -/
def textproto.CanonicalMIMEHeaderKey (s : String) : String :=
  if s.data.all http.isTokenByte then String.mk (textproto.canonicalLoop true s.data) else s

namespace multipart

/-- Go `escapeQuotes`: a backslash and a double quote get a backslash in front. -/
def escapeQuotes (s : String) : String :=
  String.mk (s.data.flatMap (fun c =>
    if c = Char.ofNat 92 ∨ c = Char.ofNat 34 then [Char.ofNat 92, c] else [c]))

/-- The header lines and the content of one part. -/
def partBytes : Part → Bytes
  | .field fieldname value =>
    bytesOf ("Content-Disposition: form-data; name=\x22" ++ escapeQuotes fieldname ++ "\x22\r\n\r\n") ++
      bytesOf value
  | .file fieldname filename data =>
    bytesOf ("Content-Disposition: form-data; name=\x22" ++ escapeQuotes fieldname ++
      "\x22; filename=\x22" ++ escapeQuotes filename ++
      "\x22\r\nContent-Type: application/octet-stream\r\n\r\n") ++ data

/-- The parts, each after its boundary line. -/
def partsBytes (boundary : String) : Bool → List Part → Bytes
  | _, [] => []
  | first, p :: ps =>
    bytesOf ((if first then "--" else "\r\n--") ++ boundary ++ "\r\n") ++ partBytes p ++
      partsBytes boundary false ps

/-- What a `multipart.Writer` has written once it is closed. -/
def encode (boundary : String) (parts : List Part) : Bytes :=
  partsBytes boundary true parts ++ bytesOf ("\r\n--" ++ boundary ++ "--\r\n")

end multipart

/-- The reference instance of `Lib`. -/
def goLib : Lib := ⟨url.Parse, url.URL.Query, http.newRequestErr, multipart.encode⟩

/-! ## The parameter maps with their slices

In `request.go` a value list is a Go slice, a window into a backing array, and
`values[:]` is the same window.  The definitions below keep the slices and the
backing arrays apart, so that two slices over one array can be told from two
copies; `sliceRequest.load` reads a request of this kind into a `request`. -/

/-- A Go `[]string`: the address of its backing array, its offset in it, and its length. -/
structure Slice where
  arr : Nat
  off : Nat
  len : Nat
  deriving DecidableEq

/-- The backing arrays, by address. -/
abbrev Heap := List (List String)

/-- The strings a slice shows. -/
def Heap.read (h : Heap) (s : Slice) : List String := ((h.getD s.arr []).drop s.off).take s.len

/-- The assignment `s[i] = v`, for `i` within the length of `s`. -/
def Heap.store (h : Heap) (s : Slice) (i : Nat) (v : String) : Heap :=
  if i < s.len then h.set s.arr ((h.getD s.arr []).set (s.off + i) v) else h

/-- The slice a variadic call `f(key, v1, ..., vn)` passes: a new backing array with these values. -/
def Heap.variadic (h : Heap) (values : List String) : Heap × Slice :=
  (h ++ [values], ⟨h.length, 0, values.length⟩)

/-- The Go expression `values[:]`. -/
def Slice.all (values : Slice) : Slice := ⟨values.arr, values.off, values.len⟩

/-- The struct `request` with the value lists as slices, and the backing arrays. -/
structure sliceRequest where
  heap : Heap
  session : session
  method : String
  URL : String
  headers : GoMap Slice
  isJSON : Bool
  body : Bytes
  formParams : GoMap Slice
  queryParams : GoMap Slice
  files : GoMap formFile

/-- The loop `for key, values := range m { dst[key] = values[:] }` of the accessors. -/
def copySlices (m : GoMap Slice) : GoMap Slice :=
  m.entries.foldl (fun dst kv => dst.insert kv.1 kv.2.all) ∅

/-- Go `func (this *request) SetHeader(key string, values ...string) Request`, on slices. -/
def sliceRequest.SetHeader (this : sliceRequest) (key : String) (values : Slice) : sliceRequest :=
  if values.len > 0 then { this with headers := this.headers.insert key values.all }
  else { this with headers := this.headers.erase key }

/-- Go `func (this *request) Headers() map[string][]string`, on slices. -/
def sliceRequest.Headers (this : sliceRequest) : GoMap Slice := copySlices this.headers

/-- Go `func (this *request) SetQueryParam(key string, values ...string) Request`, on slices. -/
def sliceRequest.SetQueryParam (this : sliceRequest) (key : String) (values : Slice) : sliceRequest :=
  if values.len > 0 then { this with queryParams := this.queryParams.insert key values.all }
  else { this with queryParams := this.queryParams.erase key }

/-- Go `func (this *request) QueryParams() map[string][]string`, on slices. -/
def sliceRequest.QueryParams (this : sliceRequest) : GoMap Slice := copySlices this.queryParams

/-- Go `func (this *request) SetFormParam(key string, values ...string) Request`, on slices. -/
def sliceRequest.SetFormParam (this : sliceRequest) (key : String) (values : Slice) : sliceRequest :=
  if values.len > 0 then { this with formParams := this.formParams.insert key values.all }
  else { this with formParams := this.formParams.erase key }

/-- Go `func (this *request) FormParams() map[string][]string`, on slices; the loop of the
source ranges over `this.queryParams`. -/
def sliceRequest.FormParams (this : sliceRequest) : GoMap Slice := copySlices this.queryParams

/-- A map of slices read through the backing arrays. -/
def loadMap (h : Heap) (m : GoMap Slice) : GoMap (List String) :=
  m.entries.foldr (fun kv dst => dst.insert kv.1 (h.read kv.2)) ∅

/-- The request a `sliceRequest` stands for: every slice is read through the backing arrays. -/
def sliceRequest.load (this : sliceRequest) : request :=
  { session := this.session, method := this.method, URL := this.URL,
    headers := loadMap this.heap this.headers, isJSON := this.isJSON, body := this.body,
    formParams := loadMap this.heap this.formParams,
    queryParams := loadMap this.heap this.queryParams, files := this.files }

/-- What the caller does with a slice `s` it holds: the assignment `s[i] = v`. -/
def sliceRequest.callerStore (this : sliceRequest) (s : Slice) (i : Nat) (v : String) : sliceRequest :=
  { this with heap := this.heap.store s i v }

/-! ## Definitions used in the statements -/

/-- The seven method names `Method` accepts. -/
def supportedMethods : List String := ["GET", "POST", "PUT", "DELETE", "HEAD", "OPTIONS", "PATCH"]

/-- A request of the default session for `http://example.com`, before any mutator is called. -/
def sampleRequest : request :=
  { session := sessionWithoutCookies, method := "POST", URL := "http://example.com", headers := ∅,
    isJSON := false, body := [], formParams := ∅, queryParams := ∅, files := ∅ }

/-- The cookie `&http.Cookie{Name: name, Value: value}` that `setCookies` appends for an override. -/
def overrideCookie (kv : Σ _ : String, String) : http.Cookie := { Name := kv.1, Value := kv.2 }

/-- Whether a cookie named `name` occurs in the list. -/
def hasCookie (cookies : List http.Cookie) (name : String) : Bool :=
  cookies.any (fun cookie => cookie.Name == name)

/-- The error texts of the reference `url.Parse`. -/
def url.parseErrors : List String :=
  [url.notCovered, "net/url: invalid control character in URL", "missing protocol scheme",
   "first path segment in URL cannot contain colon", "invalid port after host",
   "invalid character in host name"]

/-- The pairs `key=value` of one key, escaped, in the order of its values. -/
def url.pairsOf (m : GoMap (List String)) (k : String) : List String :=
  ((m.lookup k).getD []).map (fun x => url.QueryEscape k ++ "=" ++ url.QueryEscape x)

/-- The form-urlencoding of a parameter map as the specification words it: the
percent-encoded `key=value` pairs of all keys, in sorted key order, with all the
values of a key in their order, joined by `&`. -/
def formUrlencode (m : GoMap (List String)) : String :=
  "&".intercalate ((url.sortStrings m.keys).flatMap (url.pairsOf m))

/-- The statement `Values.Encode` runs for one pair that is already put together. -/
def url.joinStep (buf p : String) : String := (if buf.length > 0 then buf ++ "&" else buf) ++ p

/-- Every key of the map has at least one value. -/
def url.noEmptyList (v : url.Values) : Prop := ∀ k vs, v.lookup k = some vs → vs ≠ []

/-- A session whose jar reports the cookie `a=1` for every URL and whose overrides hold `a=2` and `b=3`. -/
def sampleSession : session :=
  ⟨some ⟨fun _ => [{ Name := "a", Value := "1" }]⟩,
    ((∅ : GoMap String).insert "a" "2").insert "b" "3"⟩

/-- The URL `http://example.com/`. -/
def sampleURL : url.URL := ⟨"http", "", "example.com", "/", "", ""⟩

/-- One call on a request: a mutator of the builder, or `parseBody` with the boundary it draws. -/
inductive Op where
  | SetHeader (key : String) (values : List String)
  | SetQueryParam (key : String) (values : List String)
  | SetFormParam (key : String) (values : List String)
  | AddFile (fieldname filename : String) (data : Option Bytes)
  | SetJSON (json : String)
  | SetRawBody (body : Bytes)
  | parseBody (boundary : String)

/-- The request after one call; `none` when the call panics. -/
def Op.run (lib : Lib) : Op → request → Option request
  | .SetHeader key values, r => some (r.SetHeader key values)
  | .SetQueryParam key values, r => some (r.SetQueryParam key values)
  | .SetFormParam key values, r => some (r.SetFormParam key values)
  | .AddFile fieldname filename data, r => some (r.AddFile fieldname filename data)
  | .SetJSON json, r => some (r.SetJSON json)
  | .SetRawBody body, r => some (r.SetRawBody body)
  | .parseBody boundary, r => (r.parseBody lib boundary).map (fun res => res.this)

/-- The request after a sequence of calls; `none` when one of them panics. -/
def runOps (lib : Lib) : List Op → request → Option request
  | [], r => some r
  | op :: ops, r => (op.run lib r).bind (runOps lib ops)

/-- The requests that `newRequest` followed by a sequence of calls can produce. -/
def Reachable (lib : Lib) (r : request) : Prop :=
  ∃ method urlPath s r0 ops, newRequest lib method urlPath s = .ok r0 ∧ runOps lib ops r0 = some r

/-- The text fields of the multipart branch: every form-param entry gives its key with
its first value; `none` when an entry has no value. -/
def firstValueFields : List (Σ _ : String, List String) → Option (List multipart.Part)
  | [] => some []
  | ⟨_, []⟩ :: _ => none
  | ⟨fieldname, v0 :: _⟩ :: rest =>
    (firstValueFields rest).map (fun ps => multipart.Part.field fieldname v0 :: ps)

/-- The file parts of the multipart branch: every files entry gives one part. -/
def fileParts (files : List (Σ _ : String, formFile)) : List multipart.Part :=
  files.map (fun kv => multipart.Part.file kv.1 kv.2.filename kv.2.data)

/-- The payload `parseBody` hands to `http.NewRequest`, read off the body, the files and the
form params alone; `none` when the multipart branch panics. -/
def bodyPayload (lib : Lib) (boundary : String) (r : request) : Option Bytes :=
  if r.body.length > 0 then some r.body
  else if r.files.entries.length > 0 then
    (firstValueFields r.formParams.entries).map
      (fun fields => lib.multipartBytes boundary (fields ++ fileParts r.files.entries))
  else some (bytesOf (formUrlencode r.formParams))

/-- The headers `parseBody` leaves, read off the body, the files and the headers alone. -/
def bodyHeaders (boundary : String) (r : request) : GoMap (List String) :=
  if r.body.length > 0 then
    if r.isJSON then r.headers.insert "Content-Type" ["application/json"] else r.headers
  else if r.files.entries.length > 0 then
    r.headers.insert "Content-Type" [(multipart.NewWriter boundary).FormDataContentType]
  else r.headers.insert "Content-Type" ["application/x-www-form-urlencoded"]

/-- The values the builder holds for keys of canonical form `c`, in iteration order. -/
def headerValues (canonicalKey : String → String) (headers : GoMap (List String)) (c : String) :
    List String :=
  (headers.entries.filter (fun kv => decide (canonicalKey kv.1 = c))).flatMap (fun kv => kv.2)

/-- A `sliceRequest` for `http://example.com` with no backing array and no parameter. -/
def sampleSliceRequest : sliceRequest :=
  { heap := [], session := sessionWithoutCookies, method := "GET", URL := "http://example.com",
    headers := ∅, isJSON := false, body := [], formParams := ∅, queryParams := ∅, files := ∅ }

/-- The text field the multipart branch writes for one form-param entry. -/
def fieldPart (kv : Σ _ : String, List String) : multipart.Part :=
  multipart.Part.field kv.1 (kv.2.headD "")

/-- The request `newRequest` returns for `http://example.com/?q=1&q=2` on a new session. -/
def sampleQueryRequest : request :=
  { session := NewSession, method := "GET", URL := "http://example.com/", headers := ∅,
    isJSON := false, body := [], formParams := ∅,
    queryParams := (∅ : GoMap (List String)).insert "q" ["1", "2"], files := ∅ }

/-- A builder's header map with `accept: a, b` and `X-Y: 1`. -/
def sampleHeaders : GoMap (List String) :=
  ((∅ : GoMap (List String)).insert "accept" ["a", "b"]).insert "X-Y" ["1"]

/-- The sample request after the call `SetQueryParam("q", "1")` and the call `SetHeader("X", "a")`,
each with a fresh backing array for its values. -/
def aliasRequest : sliceRequest :=
  let r1 := ({ sampleSliceRequest with heap := (sampleSliceRequest.heap.variadic ["1"]).1 }).SetQueryParam
    "q" (sampleSliceRequest.heap.variadic ["1"]).2
  ({ r1 with heap := (r1.heap.variadic ["a"]).1 }).SetHeader "X" (r1.heap.variadic ["a"]).2

/-- The slice a returned map holds for a key; the empty slice when the key is absent. -/
def sliceAt (m : GoMap Slice) (key : String) : Slice := (m.lookup key).getD ⟨0, 0, 0⟩

end requests

/-! ## Theorems -/

namespace requests

/-- Copying entries without repeated keys into a map: a key of the entries gets its entry and
any other key keeps what the destination had. -/
theorem foldl_insert_lookup {β : Type} (l : List (Σ _ : String, β)) (hl : l.NodupKeys)
    (acc : GoMap β) (k : String) :
    (l.foldl (fun dst kv => dst.insert kv.1 kv.2) acc).lookup k =
      match l.dlookup k with
      | some v => some v
      | none => acc.lookup k := by
  induction l generalizing acc with
  | nil => simp
  | cons hd tl ih =>
    obtain ⟨a, b⟩ := hd
    rw [List.nodupKeys_cons] at hl
    rw [List.foldl_cons, ih hl.2]
    by_cases hk : k = a
    · subst hk
      have hnone : List.dlookup k tl = none := List.dlookup_eq_none.mpr hl.1
      simp [hnone, AList.lookup_insert]
    · have hd : List.dlookup k (⟨a, b⟩ :: tl) = List.dlookup k tl :=
        List.dlookup_cons_ne tl ⟨a, b⟩ hk
      rw [hd, AList.lookup_insert_ne hk]

/-- The copy loop yields a map with the same value at every key. -/
theorem copyMap_lookup (m : GoMap (List String)) (k : String) :
    (copyMap m).lookup k = m.lookup k := by
  unfold copyMap
  rw [foldl_insert_lookup m.entries m.nodupKeys ∅ k]
  cases h : List.dlookup k m.entries <;> simp [AList.lookup, h]

/-- The copy loop yields the same entries, up to their order. -/
theorem copyMap_perm (m : GoMap (List String)) : (copyMap m).entries.Perm m.entries := by
  apply List.lookup_ext (copyMap m).nodupKeys m.nodupKeys
  intro x y
  have := copyMap_lookup m x
  simp only [AList.lookup] at this
  rw [this]

/-- Whatever `SetFormParam` stores, `FormParams()` returns what `QueryParams()` returns. -/
theorem FormParams_eq_QueryParams (r : request) (K : String) (V : List String) :
    (r.SetFormParam K V).FormParams = r.QueryParams := by
  unfold request.SetFormParam request.FormParams request.QueryParams
  split <;> rfl

/-- Claim C3, evaluated on the code: after `SetQueryParam("q", "1")` and
`SetFormParam("a", "b")` on a fresh request, the map returned by `FormParams()` has no entry
for the form key `a` and has the query key `q`, while the form params themselves hold `a`. -/
theorem C3_FormParams_reads_queryParams :
    ((sampleRequest.SetQueryParam "q" ["1"]).SetFormParam "a" ["b"]).FormParams.lookup "a" = none ∧
    ((sampleRequest.SetQueryParam "q" ["1"]).SetFormParam "a" ["b"]).FormParams.lookup "q" = some ["1"] ∧
    ((sampleRequest.SetQueryParam "q" ["1"]).SetFormParam "a" ["b"]).formParams.lookup "a" = some ["b"] := by
  decide

/-- A request that `newRequest` returns has the method it was given and is otherwise fresh. -/
theorem newRequest_method (lib : Lib) (m u : String) (s : session) (r : request)
    (h : newRequest lib m u s = .ok r) : r.method = m ∧ r.headers = ∅ ∧ r.formParams = ∅ ∧
      r.files = ∅ ∧ r.body = [] ∧ r.isJSON = false := by
  unfold newRequest at h
  split at h
  · cases h
  · simp only [Except.ok.injEq] at h
    subst h
    simp

/-- The function `newRequest` succeeds exactly when `parseURL` accepts the URL. -/
theorem newRequest_ok_iff (lib : Lib) (m u : String) (s : session) :
    (∃ r, newRequest lib m u s = .ok r) ↔ ∃ U, parseURL lib u = .ok U := by
  unfold newRequest
  constructor
  · rintro ⟨r, h⟩
    split at h
    · cases h
    · exact ⟨_, by assumption⟩
  · rintro ⟨U, h⟩
    rw [h]
    exact ⟨_, rfl⟩

/-- Claim C4, evaluated on the code: the session-bound `Patch` builds a request whose method
is `TRACE`, while the free function `Patch` builds one whose method is `PATCH`. -/
theorem C4_session_Patch_issues_TRACE :
    (session.Patch goLib NewSession "http://example.com").toOption.map request.method = some "TRACE" ∧
    (Patch goLib "http://example.com").toOption.map request.method = some "PATCH" := by
  decide

/-- Every request the session-bound `Patch` returns has method `TRACE`. -/
theorem session_Patch_method (lib : Lib) (s : session) (u : String) (r : request)
    (h : session.Patch lib s u = .ok r) : r.method = "TRACE" :=
  (newRequest_method lib "TRACE" u s r h).1

/-- An unsupported name makes both `Method` variants fail before the URL is used. -/
theorem Method_unsupported (lib : Lib) (s : session) (name u : String) (h : name ∉ supportedMethods) :
    session.Method lib s name u = .error errMethod ∧ Method lib name u = .error errMethod := by
  simp only [supportedMethods, List.mem_cons, List.mem_singleton, not_or, List.not_mem_nil,
    not_false_eq_true, and_true] at h
  have h2 : name ≠ "GET" ∧ name ≠ "POST" ∧ name ≠ "PUT" ∧ name ≠ "DELETE" ∧
      name ≠ "HEAD" ∧ name ≠ "OPTIONS" ∧ name ≠ "PATCH" := by tauto
  exact ⟨if_pos h2, if_pos h2⟩

/-- A supported name makes both `Method` variants return what `newRequest` returns. -/
theorem Method_supported (lib : Lib) (s : session) (name u : String) (h : name ∈ supportedMethods) :
    session.Method lib s name u = newRequest lib name u s ∧
      Method lib name u = newRequest lib name u sessionWithoutCookies := by
  simp only [supportedMethods, List.mem_cons, List.mem_singleton, List.not_mem_nil, or_false] at h
  have h2 : ¬ (name ≠ "GET" ∧ name ≠ "POST" ∧ name ≠ "PUT" ∧ name ≠ "DELETE" ∧
      name ≠ "HEAD" ∧ name ≠ "OPTIONS" ∧ name ≠ "PATCH") := by tauto
  exact ⟨if_neg h2, if_neg h2⟩

/-- Claim C5: for a URL that `parseURL` accepts, `Method(name, url)` (session-bound and free)
fails with `method not supported` exactly when `name` is none of the seven supported names,
and otherwise returns a request whose method is `name`; the name is checked before the URL is
looked at, so an unsupported name, `TRACE` among them, fails for every URL. -/
theorem C5_Method_validates_name (lib : Lib) (s : session) (name urlPath : String)
    (hurl : ∃ U, parseURL lib urlPath = .ok U) :
    (session.Method lib s name urlPath = .error errMethod ↔ name ∉ supportedMethods) ∧
    (Method lib name urlPath = .error errMethod ↔ name ∉ supportedMethods) ∧
    (name ∈ supportedMethods →
      (∃ r, session.Method lib s name urlPath = .ok r ∧ r.method = name) ∧
      (∃ r, Method lib name urlPath = .ok r ∧ r.method = name)) ∧
    (∀ u, name ∉ supportedMethods →
      session.Method lib s name u = .error errMethod ∧ Method lib name u = .error errMethod) ∧
    (∀ u, session.Method lib s "TRACE" u = .error errMethod ∧ Method lib "TRACE" u = .error errMethod) := by
  have hsucc : name ∈ supportedMethods →
      (∃ r, session.Method lib s name urlPath = .ok r ∧ r.method = name) ∧
      (∃ r, Method lib name urlPath = .ok r ∧ r.method = name) := by
    intro hin
    obtain ⟨e1, e2⟩ := Method_supported lib s name urlPath hin
    obtain ⟨r1, h1⟩ := (newRequest_ok_iff lib name urlPath s).mpr hurl
    obtain ⟨r2, h2⟩ := (newRequest_ok_iff lib name urlPath sessionWithoutCookies).mpr hurl
    exact ⟨⟨r1, e1.trans h1, (newRequest_method _ _ _ _ _ h1).1⟩,
      ⟨r2, e2.trans h2, (newRequest_method _ _ _ _ _ h2).1⟩⟩
  refine ⟨⟨?_, fun h => (Method_unsupported lib s name urlPath h).1⟩,
    ⟨?_, fun h => (Method_unsupported lib s name urlPath h).2⟩, hsucc,
    fun u h => Method_unsupported lib s name u h,
    fun u => Method_unsupported lib s "TRACE" u (by decide)⟩
  · intro herr hin
    obtain ⟨⟨r, hr, _⟩, _⟩ := hsucc hin
    rw [hr] at herr
    cases herr
  · intro herr hin
    obtain ⟨_, ⟨r, hr, _⟩⟩ := hsucc hin
    rw [hr] at herr
    cases herr

/-- Claim C5 at `http://example.com`: `TRACE` is refused and `PUT` gives a `PUT` request. -/
theorem C5_witness :
    (session.Method goLib NewSession "TRACE" "http://example.com" = .error errMethod ↔
      "TRACE" ∉ supportedMethods) ∧
    (∃ r, session.Method goLib NewSession "PUT" "http://example.com" = .ok r ∧ r.method = "PUT") :=
  ⟨(C5_Method_validates_name goLib NewSession "TRACE" "http://example.com" ⟨_, rfl⟩).1,
   ((C5_Method_validates_name goLib NewSession "PUT" "http://example.com" ⟨_, rfl⟩).2.2.1
      (by decide)).1⟩

/-- Claim C6, evaluated on the code: `parseURL("ftp://x")` returns a URL and no error.  The
first parse has scheme `ftp`, the retry parses `http://ftp://x`, whose scheme is `http`, host
`ftp:` and path `//x`; `newRequest` stores the base URL `http://ftp://x`. -/
theorem C6_parseURL_accepts_ftp :
    parseURL goLib "ftp://x" = .ok ⟨"http", "", "ftp:", "//x", "", ""⟩ ∧
    (newRequest goLib "GET" "ftp://x" NewSession).toOption.map request.URL = some "http://ftp://x" :=
  ⟨rfl, by decide⟩

/-- The general half of claim C6: when the scheme is still neither `http` nor `https` after the
retry, `parseURL` fails with its own error text, whatever the parser is. -/
theorem parseURL_retry_error (lib : Lib) (raw : String) (u1 u2 : url.URL)
    (h1 : lib.urlParse raw = .ok u1) (hs1 : u1.Scheme ≠ "http" ∧ u1.Scheme ≠ "https")
    (h2 : lib.urlParse ("http://" ++ raw) = .ok u2) (hs2 : u2.Scheme ≠ "http" ∧ u2.Scheme ≠ "https") :
    parseURL lib raw = .error errOnlyHTTP := by
  unfold parseURL
  simp [h1, hs1, h2, hs2]

/-- Claim C7: when the first parse of `raw` succeeds with a scheme other than `http` and
`https`, `newRequest` works from the parse of `"http://" + raw`: a parse error is returned
as it is, and a parse with scheme `http` or `https` gives a request whose base URL is
`scheme + "://" + host + path` of that parse and whose query params are exactly its query
parameters. -/
theorem C7_newRequest_retry (lib : Lib) (method raw : String) (s : session) (u1 : url.URL)
    (h1 : lib.urlParse raw = .ok u1) (hs : u1.Scheme ≠ "http" ∧ u1.Scheme ≠ "https") :
    (∀ err, lib.urlParse ("http://" ++ raw) = .error err → newRequest lib method raw s = .error err) ∧
    (∀ u2, lib.urlParse ("http://" ++ raw) = .ok u2 → (u2.Scheme = "http" ∨ u2.Scheme = "https") →
      ∃ r, newRequest lib method raw s = .ok r ∧
        r.URL = u2.Scheme ++ "://" ++ u2.Host ++ u2.Path ∧
        (∀ k, r.queryParams.lookup k = (lib.urlQuery u2).lookup k) ∧
        r.queryParams.entries.Perm (lib.urlQuery u2).entries ∧
        r.method = method) := by
  constructor
  · intro err h2
    simp [newRequest, parseURL, h1, hs, h2]
  · intro u2 h2 hs2
    have hs2' : ¬ (u2.Scheme ≠ "http" ∧ u2.Scheme ≠ "https") := by tauto
    have hp : parseURL lib raw = .ok u2 := by
      simp only [parseURL, h1, if_pos hs, h2, if_neg hs2']
    refine ⟨_, by simp only [newRequest, hp]; rfl, rfl, ?_, ?_, rfl⟩
    · intro k
      exact copyMap_lookup _ k
    · exact copyMap_perm _

/-- Claim C7 at `example.com/a`: the base URL is `http://example.com/a` and there is no query param. -/
theorem C7_witness :
    ∃ r, newRequest goLib "GET" "example.com/a" sessionWithoutCookies = .ok r ∧
      r.URL = "http://example.com/a" ∧ r.queryParams.entries = [] := by
  obtain ⟨r, hr, hurl, _, hperm, _⟩ :=
    (C7_newRequest_retry goLib "GET" "example.com/a" sessionWithoutCookies
      ⟨"", "", "", "example.com/a", "", ""⟩ rfl (by decide)).2
      ⟨"http", "", "example.com", "/a", "", ""⟩ rfl (by decide)
  refine ⟨r, hr, ?_, ?_⟩
  · rw [hurl]; decide
  · have : (goLib.urlQuery ⟨"http", "", "example.com", "/a", "", ""⟩).entries = [] := by decide
    rw [this] at hperm
    exact List.Perm.eq_nil hperm

/-- The map `Headers()` returns after `SetHeader(K, V...)` with values. -/
theorem SetHeader_lookup (r : request) (K : String) (V : List String) (hV : V ≠ []) (k : String) :
    (r.SetHeader K V).Headers.lookup k = if k = K then some V else r.Headers.lookup k := by
  have hlen : V.length > 0 := List.length_pos.mpr hV
  simp only [request.SetHeader, if_pos hlen, request.Headers, copyMap_lookup]
  by_cases hk : k = K
  · subst hk; simp [AList.lookup_insert]
  · simp [hk, AList.lookup_insert_ne hk]

/-- The map `Headers()` returns after `SetHeader(K)` without values. -/
theorem SetHeader_delete_lookup (r : request) (K : String) (k : String) :
    (r.SetHeader K []).Headers.lookup k = if k = K then none else r.Headers.lookup k := by
  simp only [request.SetHeader, request.Headers, copyMap_lookup]
  by_cases hk : k = K
  · subst hk; simp [AList.lookup_erase]
  · simp [hk, AList.lookup_erase_ne hk]

/-- The map `QueryParams()` returns after `SetQueryParam(K, V...)` with values. -/
theorem SetQueryParam_lookup (r : request) (K : String) (V : List String) (hV : V ≠ []) (k : String) :
    (r.SetQueryParam K V).QueryParams.lookup k = if k = K then some V else r.QueryParams.lookup k := by
  have hlen : V.length > 0 := List.length_pos.mpr hV
  simp only [request.SetQueryParam, if_pos hlen, request.QueryParams, copyMap_lookup]
  by_cases hk : k = K
  · subst hk; simp [AList.lookup_insert]
  · simp [hk, AList.lookup_insert_ne hk]

/-- The map `QueryParams()` returns after `SetQueryParam(K)` without values. -/
theorem SetQueryParam_delete_lookup (r : request) (K : String) (k : String) :
    (r.SetQueryParam K []).QueryParams.lookup k = if k = K then none else r.QueryParams.lookup k := by
  simp only [request.SetQueryParam, request.QueryParams, copyMap_lookup]
  by_cases hk : k = K
  · subst hk; simp [AList.lookup_erase]
  · simp [hk, AList.lookup_erase_ne hk]

/-- The copy of a one-entry map is that entry. -/
theorem copyMap_insert_empty (K : String) (V : List String) :
    (copyMap ((∅ : GoMap (List String)).insert K V)).entries = [⟨K, V⟩] := by
  simp [copyMap, AList.insert_entries]

/-- Claim C8: after `SetHeader(K, V...)` with `V` non-empty, `Headers()` maps `K` to exactly `V`
and every other key as before; after a following `SetHeader(K)` without values it has no
entry for `K`; on a freshly constructed request `SetHeader(K, V...)` gives exactly `{K: V}`.
The same holds for `SetQueryParam` and `QueryParams()`. -/
theorem C8_SetHeader_Headers (r : request) (K : String) (V : List String) (hV : V ≠ []) :
    (∀ k, (r.SetHeader K V).Headers.lookup k = if k = K then some V else r.Headers.lookup k) ∧
    (∀ k, ((r.SetHeader K V).SetHeader K []).Headers.lookup k =
      if k = K then none else r.Headers.lookup k) ∧
    (∀ lib method urlPath s r0, newRequest lib method urlPath s = .ok r0 →
      (r0.SetHeader K V).Headers.entries = [⟨K, V⟩]) ∧
    (∀ k, (r.SetQueryParam K V).QueryParams.lookup k =
      if k = K then some V else r.QueryParams.lookup k) ∧
    (∀ k, ((r.SetQueryParam K V).SetQueryParam K []).QueryParams.lookup k =
      if k = K then none else r.QueryParams.lookup k) ∧
    (r.queryParams = ∅ → (r.SetQueryParam K V).QueryParams.entries = [⟨K, V⟩]) := by
  have hlen : V.length > 0 := List.length_pos.mpr hV
  refine ⟨SetHeader_lookup r K V hV, ?_, ?_, SetQueryParam_lookup r K V hV, ?_, ?_⟩
  · intro k
    rw [SetHeader_delete_lookup, SetHeader_lookup r K V hV]
    by_cases hk : k = K <;> simp [hk]
  · intro lib method urlPath s r0 h0
    have hh : r0.headers = ∅ := (newRequest_method lib method urlPath s r0 h0).2.1
    simp only [request.SetHeader, if_pos hlen, request.Headers, hh]
    exact copyMap_insert_empty K V
  · intro k
    rw [SetQueryParam_delete_lookup, SetQueryParam_lookup r K V hV]
    by_cases hk : k = K <;> simp [hk]
  · intro hq
    simp only [request.SetQueryParam, if_pos hlen, request.QueryParams, hq]
    exact copyMap_insert_empty K V

/-- Claim C8 on a sample request: a second `SetHeader` replaces the list, one without values removes the key. -/
theorem C8_witness :
    ((sampleRequest.SetHeader "Accept" ["a", "b"]).SetHeader "Accept" ["c"]).Headers.lookup "Accept"
      = some ["c"] ∧
    (((sampleRequest.SetHeader "Accept" ["a", "b"]).SetHeader "Accept" ["c"]).SetHeader "Accept" []).Headers.lookup
      "Accept" = none := by
  have h := C8_SetHeader_Headers (sampleRequest.SetHeader "Accept" ["a", "b"]) "Accept" ["c"] (by decide)
  exact ⟨by simpa using h.1 "Accept", by simpa using h.2.1 "Accept"⟩

/-- The override loop appends, in visiting order, a cookie for each override whose name is not
among the cookies it started from; the names visited are distinct. -/
theorem setCookiesLoop_eq (visit : List (Σ _ : String, String)) (hv : visit.NodupKeys)
    (cookies : List http.Cookie) :
    setCookiesLoop cookies visit =
      cookies ++ (visit.filter (fun kv => !hasCookie cookies kv.1)).map overrideCookie := by
  induction visit generalizing cookies with
  | nil => simp [setCookiesLoop]
  | cons hd tl ih =>
    rw [List.nodupKeys_cons] at hv
    have hstep : setCookiesLoop cookies (hd :: tl) =
        setCookiesLoop (setCookiesStep cookies hd.1 hd.2) tl := rfl
    rw [hstep, ih hv.2]
    by_cases hf : hasCookie cookies hd.1 = true
    · have h1 : setCookiesStep cookies hd.1 hd.2 = cookies := by
        unfold setCookiesStep
        unfold hasCookie at hf
        simp [hf]
      rw [h1, List.filter_cons]
      simp [hf]
    · have hf' : hasCookie cookies hd.1 = false := by simpa using hf
      have h1 : setCookiesStep cookies hd.1 hd.2 = cookies ++ [overrideCookie hd] := by
        unfold setCookiesStep
        unfold hasCookie at hf'
        simp [hf', overrideCookie]
      have hcongr : tl.filter (fun kv => !hasCookie (cookies ++ [overrideCookie hd]) kv.1) =
          tl.filter (fun kv => !hasCookie cookies kv.1) := by
        apply List.filter_congr
        intro kv hkv
        have hne : hd.1 ≠ kv.1 := by
          intro heq
          apply hv.1
          rw [heq]
          exact List.mem_keys_of_mem hkv
        simp [hasCookie, overrideCookie, hne]
      rw [h1, hcongr, List.filter_cons]
      simp [hf']

/-- Claim C9: for a session with a jar, the list `setCookies` writes back starts with the
fetched cookies, each unchanged at its position, followed by one cookie `(name, value)` for
exactly the overrides whose name does not occur among the fetched cookies. -/
theorem C9_setCookies_keeps_fetched (this : session) (jar : CookieJar) (URL : url.URL)
    (hjar : this.Jar = some jar) :
    this.setCookies URL =
      some (jar.Cookies URL ++
        (this.cookies.entries.filter (fun kv => !hasCookie (jar.Cookies URL) kv.1)).map overrideCookie) ∧
    (∀ written, this.setCookies URL = some written →
      (∀ i (h : i < (jar.Cookies URL).length), written[i]? = some ((jar.Cookies URL)[i])) ∧
      (∀ name value, (⟨name, value, "", "", 0, false, false⟩ : http.Cookie) ∈ written.drop (jar.Cookies URL).length ↔
        (this.cookies.lookup name = some value ∧ hasCookie (jar.Cookies URL) name = false))) := by
  have hset : this.setCookies URL =
      some (jar.Cookies URL ++
        (this.cookies.entries.filter (fun kv => !hasCookie (jar.Cookies URL) kv.1)).map overrideCookie) := by
    unfold session.setCookies
    rw [hjar]
    simp only
    rw [setCookiesLoop_eq _ this.cookies.nodupKeys]
  refine ⟨hset, ?_⟩
  intro written hw
  rw [hset] at hw
  simp only [Option.some.injEq] at hw
  subst hw
  constructor
  · intro i h
    rw [List.getElem?_append_left h]
    exact List.getElem?_eq_getElem h
  · intro name value
    rw [List.drop_left]
    simp only [List.mem_map, List.mem_filter, overrideCookie]
    constructor
    · rintro ⟨⟨k, v⟩, ⟨hmem, hnot⟩, heq⟩
      simp only [http.Cookie.mk.injEq, and_true] at heq
      obtain ⟨rfl, rfl⟩ := heq
      refine ⟨?_, by simpa using hnot⟩
      exact AList.mem_lookup_iff.mpr hmem
    · rintro ⟨hl, hnot⟩
      exact ⟨⟨name, value⟩, ⟨AList.mem_lookup_iff.mp hl, by simp [hnot]⟩, rfl⟩

/-- The only error of `getScheme`. -/
theorem url.getSchemeLoop_error (rawURL seen cs : List Char) (e : String)
    (h : url.getSchemeLoop rawURL seen cs = .error e) : e = "missing protocol scheme" := by
  induction cs generalizing seen with
  | nil => simp [url.getSchemeLoop] at h
  | cons c cs ih =>
    unfold url.getSchemeLoop at h
    split at h
    · exact ih _ h
    · split at h
      · split at h
        · cases h
        · exact ih _ h
      · split at h
        · split at h
          · cases h; rfl
          · cases h
        · cases h

/-- The errors of the reference `parse` are among `parseErrors`. -/
theorem url.parseNoFragment_error (s : List Char) (e : String)
    (h : url.parseNoFragment s = .error e) : e ∈ url.parseErrors := by
  unfold url.parseNoFragment at h
  split at h
  · cases h; simp [url.parseErrors]
  · split at h
    · cases h
    · split at h
      · rename_i err hg
        cases h
        have := url.getSchemeLoop_error _ _ _ _ hg
        subst this
        simp [url.parseErrors]
      · simp only at h
        split at h
        · cases h
        · split at h
          · cases h; simp [url.parseErrors]
          · split at h
            · split at h
              · rename_i err hp
                cases h
                unfold url.parseHost at hp
                split at hp
                · cases hp; simp [url.parseErrors]
                · split at hp
                  · cases hp; simp [url.parseErrors]
                  · cases hp
              · cases h
            · cases h

/-- The errors of the reference `url.Parse` are among `parseErrors`. -/
theorem url.Parse_error (s : String) (e : String) (h : url.Parse s = .error e) :
    e ∈ url.parseErrors := by
  unfold url.Parse at h
  split at h
  · cases h; simp [url.parseErrors]
  · split at h
    · rename_i err hp
      cases h
      exact url.parseNoFragment_error _ _ hp
    · cases h

/-- A URL text that starts with `http://` parses, if at all, with scheme `http`. -/
theorem url.parseNoFragment_http (x : List Char) (u : url.URL)
    (h : url.parseNoFragment ('h' :: 't' :: 't' :: 'p' :: ':' :: '/' :: '/' :: x) = .ok u) :
    u.Scheme = "http" := by
  unfold url.parseNoFragment at h
  have hg : url.getScheme ('h' :: 't' :: 't' :: 'p' :: ':' :: '/' :: '/' :: x) =
      .ok (['h', 't', 't', 'p'], '/' :: '/' :: x) := by
    simp [url.getScheme, url.getSchemeLoop, url.isLetter, url.isDigit]
  rw [hg] at h
  split at h
  · cases h
  · split at h
    · rename_i h2
      simp at h2
    · simp only at h
      have hS : String.mk (List.map Char.toLower ['h', 't', 't', 'p']) = "http" := by decide
      rw [hS] at h
      split at h
      · cases h; rfl
      · split at h
        · cases h
        · split at h
          · split at h
            · cases h
            · cases h; rfl
          · cases h; rfl

/-- The reference `url.Parse` gives scheme `http` to every accepted `"http://" + raw`. -/
theorem url.Parse_http (raw : String) (u : url.URL) (h : url.Parse ("http://" ++ raw) = .ok u) :
    u.Scheme = "http" := by
  unfold url.Parse at h
  split at h
  · cases h
  · split at h
    · cases h
    · rename_i u0 hp
      cases h
      have hd : ("http://" ++ raw).data = 'h' :: 't' :: 't' :: 'p' :: ':' :: '/' :: '/' :: raw.data := by
        rw [String.data_append]; rfl
      rw [hd] at hp
      have hc : (url.cut '#' ('h' :: 't' :: 't' :: 'p' :: ':' :: '/' :: '/' :: raw.data)).1 =
          'h' :: 't' :: 't' :: 'p' :: ':' :: '/' :: '/' :: (url.cut '#' raw.data).1 := by
        simp [url.cut]
      rw [hc] at hp
      exact url.parseNoFragment_http _ u0 hp

/-- With the reference `url.Parse`, the second scheme check of `parseURL` never fires. -/
theorem parseURL_goLib_never_errOnlyHTTP (raw : String) : parseURL goLib raw ≠ .error errOnlyHTTP := by
  have hne : errOnlyHTTP ∉ url.parseErrors := by decide
  intro h
  unfold parseURL at h
  split at h
  · rename_i err he
    cases h
    exact hne (url.Parse_error _ _ he)
  · split at h
    · simp only at h
      split at h
      · rename_i err he
        cases h
        exact hne (url.Parse_error _ _ he)
      · rename_i u2 h2
        have hs := url.Parse_http raw u2 h2
        simp [hs] at h
    · cases h

/-- The bytewise order is total. -/
theorem url.lexLe_total (a b : List Char) : url.lexLe a b = true ∨ url.lexLe b a = true := by
  induction a generalizing b with
  | nil => simp [url.lexLe]
  | cons x xs ih =>
    cases b with
    | nil => simp [url.lexLe]
    | cons y ys =>
      simp only [url.lexLe]
      rcases Nat.lt_trichotomy x.toNat y.toNat with h | h | h
      · simp [h]
      · simp [h, ih ys]
      · simp [h, Nat.lt_asymm h]

/-- The bytewise order is transitive. -/
theorem url.lexLe_trans (a b c : List Char) (hab : url.lexLe a b = true) (hbc : url.lexLe b c = true) :
    url.lexLe a c = true := by
  induction a generalizing b c with
  | nil => simp [url.lexLe]
  | cons x xs ih =>
    cases b with
    | nil => simp [url.lexLe] at hab
    | cons y ys =>
      cases c with
      | nil => simp [url.lexLe] at hbc
      | cons z zs =>
        simp only [url.lexLe] at hab hbc ⊢
        rcases Nat.lt_trichotomy x.toNat y.toNat with h | h | h
        · rcases Nat.lt_trichotomy y.toNat z.toNat with h2 | h2 | h2
          · simp [Nat.lt_trans h h2]
          · simp [h2 ▸ h]
          · simp [h2, Nat.lt_asymm h2] at hbc
        · rcases Nat.lt_trichotomy y.toNat z.toNat with h2 | h2 | h2
          · simp [h ▸ h2]
          · simp [h, h2] at hab hbc ⊢
            exact ih ys zs hab hbc
          · simp [h2, Nat.lt_asymm h2] at hbc
        · simp [h, Nat.lt_asymm h] at hab

/-- The bytewise order is antisymmetric. -/
theorem url.lexLe_antisymm (a b : List Char) (hab : url.lexLe a b = true) (hba : url.lexLe b a = true) :
    a = b := by
  induction a generalizing b with
  | nil =>
    cases b with
    | nil => rfl
    | cons y ys => simp [url.lexLe] at hba
  | cons x xs ih =>
    cases b with
    | nil => simp [url.lexLe] at hab
    | cons y ys =>
      simp only [url.lexLe] at hab hba
      rcases Nat.lt_trichotomy x.toNat y.toNat with h | h | h
      · simp [h, Nat.lt_asymm h] at hba
      · simp [h] at hab hba
        have hxy : x = y := by
          rw [← Char.ofNat_toNat x, ← Char.ofNat_toNat y, h]
        rw [hxy, ih ys hab hba]
      · simp [h, Nat.lt_asymm h] at hab

instance : IsTotal String url.strLe := ⟨fun a b => url.lexLe_total a.data b.data⟩
instance : IsTrans String url.strLe := ⟨fun a b c => url.lexLe_trans a.data b.data c.data⟩
instance : IsAntisymm String url.strLe :=
  ⟨fun a b h1 h2 => String.ext (url.lexLe_antisymm a.data b.data h1 h2)⟩

/-- The result of `sort.Strings` is sorted. -/
theorem url.sortStrings_sorted (l : List String) : (url.sortStrings l).Sorted url.strLe :=
  List.sorted_insertionSort url.strLe l

/-- The result of `sort.Strings` holds the same strings. -/
theorem url.sortStrings_perm (l : List String) : (url.sortStrings l).Perm l :=
  List.perm_insertionSort url.strLe l

/-- Writing pairs into a non-empty buffer puts `&` before each of them. -/
theorem url.joinStep_go (buf : String) (hb : buf.length > 0) (ps : List String) :
    ps.foldl url.joinStep buf = String.intercalate.go buf "&" ps := by
  induction ps generalizing buf with
  | nil => rfl
  | cons p ps ih =>
    have hstep : url.joinStep buf p = buf ++ "&" ++ p := by simp [url.joinStep, hb]
    have hlen : (buf ++ "&" ++ p).length > 0 := by
      simp only [String.length_append]; omega
    rw [List.foldl_cons, hstep, ih _ hlen]
    rfl

/-- Writing non-empty pairs into an empty buffer joins them by `&`. -/
theorem url.joinStep_intercalate (ps : List String) (hp : ∀ p ∈ ps, p.length > 0) :
    ps.foldl url.joinStep "" = "&".intercalate ps := by
  cases ps with
  | nil => rfl
  | cons p ps =>
    have hstep : url.joinStep "" p = p := by
      simp [url.joinStep]
    rw [List.foldl_cons, hstep, url.joinStep_go p (hp p (List.mem_cons_self _ _))]
    rfl

/-- The inner loop of `Values.Encode` writes the pairs of its key. -/
theorem url.foldl_pairs (m : GoMap (List String)) (k : String) (buf : String) :
    ((m.lookup k).getD []).foldl (fun buf x => url.Values.encodePair buf (url.QueryEscape k) x) buf =
      (url.pairsOf m k).foldl url.joinStep buf := by
  unfold url.pairsOf
  rw [List.foldl_map]
  congr 1
  funext buf x
  simp only [url.Values.encodePair, url.joinStep, String.append_assoc]

/-- The two nested loops of `Values.Encode` are one loop over all pairs. -/
theorem url.foldl_flatMap_keys (f : String → List String) (keys : List String) (buf : String) :
    keys.foldl (fun buf k => (f k).foldl url.joinStep buf) buf =
      (keys.flatMap f).foldl url.joinStep buf := by
  induction keys generalizing buf with
  | nil => rfl
  | cons k ks ih => simp [List.flatMap_cons, List.foldl_append, ih]

/-- Every pair `key=value` is a non-empty string. -/
theorem url.pairsOf_pos (m : GoMap (List String)) (keys : List String) :
    ∀ p ∈ keys.flatMap (url.pairsOf m), p.length > 0 := by
  intro p hp
  simp only [List.mem_flatMap, url.pairsOf, List.mem_map] at hp
  obtain ⟨k, _, x, _, rfl⟩ := hp
  simp only [String.length_append]
  have : "=".length = 1 := rfl
  omega

/-- Go `Values.Encode` writes the pairs of the sorted keys, joined by `&`. -/
theorem url.Encode_eq (v : url.Values) :
    url.Values.Encode v = "&".intercalate ((url.sortStrings v.keys).flatMap (url.pairsOf v)) := by
  unfold url.Values.Encode
  split
  · rename_i h
    have he : v.entries = [] := List.length_eq_zero.mp h
    have hk : v.keys = [] := by simp [AList.keys, he, List.keys]
    rw [hk]
    rfl
  · have h1 : ∀ buf, (url.sortStrings v.keys).foldl
        (fun buf k => ((v.lookup k).getD []).foldl
          (fun buf x => url.Values.encodePair buf (url.QueryEscape k) x) buf) buf =
        (url.sortStrings v.keys).foldl (fun buf k => (url.pairsOf v k).foldl url.joinStep buf) buf := by
      intro buf
      congr 1
      funext buf k
      exact url.foldl_pairs v k buf
    rw [h1, url.foldl_flatMap_keys, url.joinStep_intercalate _ (url.pairsOf_pos v _)]

/-- The inner loop of `parseParams` appends the values to the list of its key. -/
theorem Add_foldl_getD (k : String) (values : List String) (v : url.Values) (k2 : String) :
    ((values.foldl (fun v value => url.Values.Add v k value) v).lookup k2).getD [] =
      if k2 = k then (v.lookup k).getD [] ++ values else (v.lookup k2).getD [] := by
  induction values generalizing v with
  | nil =>
    by_cases h : k2 = k
    · subst h; simp
    · simp [h]
  | cons x xs ih =>
    rw [List.foldl_cons, ih]
    by_cases h : k2 = k
    · simp [h, url.Values.Add, AList.lookup_insert]
    · simp [h, url.Values.Add, AList.lookup_insert_ne h]

/-- The inner loop of `parseParams` stores no empty list. -/
theorem Add_foldl_noEmptyList (k : String) (values : List String) (v : url.Values)
    (hv : url.noEmptyList v) :
    url.noEmptyList (values.foldl (fun v value => url.Values.Add v k value) v) := by
  induction values generalizing v with
  | nil => exact hv
  | cons x xs ih =>
    rw [List.foldl_cons]
    apply ih
    intro k2 vs h
    by_cases hk : k2 = k
    · subst hk
      simp only [url.Values.Add, AList.lookup_insert, Option.some.injEq] at h
      subst h
      simp
    · simp only [url.Values.Add, AList.lookup_insert_ne hk] at h
      exact hv k2 vs h

/-- The outer loop of `parseParams` appends to each key the values the entries hold for it. -/
theorem parseParams_fold_getD (l : List (Σ _ : String, List String)) (hl : l.NodupKeys)
    (acc : url.Values) (k : String) :
    ((l.foldl (fun v kv => kv.2.foldl (fun v value => url.Values.Add v kv.1 value) v) acc).lookup k).getD [] =
      (acc.lookup k).getD [] ++ (l.dlookup k).getD [] := by
  induction l generalizing acc with
  | nil => simp
  | cons hd tl ih =>
    obtain ⟨a, vs⟩ := hd
    rw [List.nodupKeys_cons] at hl
    rw [List.foldl_cons, ih hl.2, Add_foldl_getD]
    by_cases hk : k = a
    · subst hk
      have hnone : List.dlookup k tl = none := List.dlookup_eq_none.mpr hl.1
      simp [hnone]
    · have hd : List.dlookup k (⟨a, vs⟩ :: tl) = List.dlookup k tl :=
        List.dlookup_cons_ne tl ⟨a, vs⟩ hk
      simp [hk, hd]

/-- The outer loop of `parseParams` stores no empty list. -/
theorem parseParams_fold_noEmptyList (l : List (Σ _ : String, List String)) (acc : url.Values)
    (hacc : url.noEmptyList acc) :
    url.noEmptyList
      (l.foldl (fun v kv => kv.2.foldl (fun v value => url.Values.Add v kv.1 value) v) acc) := by
  induction l generalizing acc with
  | nil => exact hacc
  | cons hd tl ih =>
    rw [List.foldl_cons]
    exact ih _ (Add_foldl_noEmptyList _ _ _ hacc)

/-- Go `parseParams` keeps every value of every key, in order. -/
theorem parseParams_getD (m : GoMap (List String)) (k : String) :
    ((parseParams m).lookup k).getD [] = (m.lookup k).getD [] := by
  unfold parseParams
  rw [parseParams_fold_getD m.entries m.nodupKeys ∅ k]
  simp [AList.lookup]

/-- No key of `parseParams m` has an empty list. -/
theorem parseParams_noEmptyList (m : GoMap (List String)) : url.noEmptyList (parseParams m) := by
  unfold parseParams
  apply parseParams_fold_noEmptyList
  intro k vs h
  simp at h

/-- The pairs of a key are the same in `m` and in `parseParams m`. -/
theorem parseParams_pairsOf (m : GoMap (List String)) (k : String) :
    url.pairsOf (parseParams m) k = url.pairsOf m k := by
  unfold url.pairsOf
  rw [parseParams_getD]

/-- The keys of `parseParams m` are the keys of `m` that have a value. -/
theorem parseParams_mem_keys (m : GoMap (List String)) (k : String) :
    k ∈ (parseParams m).keys ↔ (m.lookup k).getD [] ≠ [] := by
  rw [← AList.mem_keys, ← AList.lookup_isSome, ← parseParams_getD]
  cases h : (parseParams m).lookup k with
  | none => simp
  | some vs =>
    have := parseParams_noEmptyList m k vs h
    simp [this]

/-- The sorted keys of `parseParams m` are the sorted keys of `m` that have a value. -/
theorem parseParams_sorted_keys (m : GoMap (List String)) :
    url.sortStrings (parseParams m).keys =
      (url.sortStrings m.keys).filter (fun k => decide ((m.lookup k).getD [] ≠ [])) := by
  apply List.eq_of_perm_of_sorted (r := url.strLe)
  · have hn1 : (url.sortStrings (parseParams m).keys).Nodup :=
      (url.sortStrings_perm _).nodup_iff.mpr (parseParams m).keys_nodup
    have hn2 : ((url.sortStrings m.keys).filter (fun k => decide ((m.lookup k).getD [] ≠ []))).Nodup :=
      List.Nodup.filter _ ((url.sortStrings_perm _).nodup_iff.mpr m.keys_nodup)
    rw [List.perm_ext_iff_of_nodup hn1 hn2]
    intro k
    rw [(url.sortStrings_perm _).mem_iff, parseParams_mem_keys, List.mem_filter,
      (url.sortStrings_perm _).mem_iff]
    constructor
    · intro h
      refine ⟨?_, by simpa using h⟩
      rw [← AList.mem_keys, ← AList.lookup_isSome]
      cases hl : m.lookup k with
      | none => simp [hl] at h
      | some vs => simp
    · intro h
      simpa using h.2
  · exact url.sortStrings_sorted _
  · exact List.Sorted.filter _ (url.sortStrings_sorted _)

/-- Keys without pairs contribute nothing to the list of pairs. -/
theorem flatMap_filter_nonempty (f : String → List String) (l : List String) :
    (l.filter (fun k => decide (f k ≠ []))).flatMap f = l.flatMap f := by
  induction l with
  | nil => rfl
  | cons k ks ih =>
    by_cases h : f k = []
    · rw [List.filter_cons]
      simp only [h, ne_eq, not_true_eq_false, decide_False, Bool.false_eq_true, if_false,
        List.flatMap_cons, List.nil_append]
      exact ih
    · rw [List.filter_cons]
      simp only [h, ne_eq, not_false_eq_true, decide_True, if_true, List.flatMap_cons]
      rw [ih]

/-- A key has no pair exactly when it has no value. -/
theorem pairsOf_eq_nil (m : GoMap (List String)) (k : String) :
    url.pairsOf m k = [] ↔ (m.lookup k).getD [] = [] := by
  simp [url.pairsOf]

/-- The encoding of `parseParams m` is the form-urlencoding of `m`. -/
theorem Encode_parseParams (m : GoMap (List String)) :
    url.Values.Encode (parseParams m) = formUrlencode m := by
  rw [url.Encode_eq, formUrlencode, parseParams_sorted_keys]
  have h1 : (fun k => decide ((m.lookup k).getD [] ≠ [])) = (fun k => decide (url.pairsOf m k ≠ [])) := by
    funext k
    simp [pairsOf_eq_nil]
  have h2 : url.pairsOf (parseParams m) = url.pairsOf m := funext (parseParams_pairsOf m)
  rw [h1, h2, flatMap_filter_nonempty]

/-- The form-urlencoding of the empty map is the empty string. -/
theorem formUrlencode_empty : formUrlencode ∅ = "" := rfl

/-- Claim C9 with `a=1` in the jar and the overrides `a=2`, `b=3`: the written list keeps `a=1`,
gets `b=3` and has no cookie `a=2`. -/
theorem C9_witness :
    sampleSession.setCookies sampleURL =
      some [{ Name := "a", Value := "1" }, { Name := "b", Value := "3" }] :=
  (C9_setCookies_keeps_fetched sampleSession ⟨fun _ => [{ Name := "a", Value := "1" }]⟩ sampleURL
    rfl).1.trans (by decide)

/-- Changing the headers does not change `UrlPath()`. -/
theorem UrlPath_frame (r : request) (h : GoMap (List String)) :
    ({ r with headers := h } : request).UrlPath = r.UrlPath := rfl

/-- Claim C10: `UrlPath()` returns the base URL unchanged when `queryParams` is empty, and
otherwise the base URL, a `?`, and the form-urlencoding of `queryParams` (every key with
every one of its values); it reads the URL and the query params only, so two requests that
agree on these have the same `UrlPath()` whatever their method, headers, form params, files
and body are. -/
theorem C10_UrlPath (r : request) :
    (r.queryParams.entries = [] → r.UrlPath = r.URL) ∧
    (r.queryParams.entries ≠ [] → r.UrlPath = r.URL ++ "?" ++ formUrlencode r.queryParams) ∧
    (∀ r2 : request, r2.URL = r.URL → r2.queryParams = r.queryParams → r2.UrlPath = r.UrlPath) := by
  refine ⟨?_, ?_, ?_⟩
  · intro h
    simp [request.UrlPath, h]
  · intro h
    have hlen : r.queryParams.entries.length > 0 := List.length_pos.mpr h
    simp only [request.UrlPath, if_pos hlen, Encode_parseParams]
  · intro r2 h1 h2
    simp only [request.UrlPath, h1, h2]

/-- Claim C10 on a sample request, with and without query params. -/
theorem C10_witness :
    ((sampleRequest.SetQueryParam "b" ["x y", "2"]).SetQueryParam "a" ["é"]).UrlPath =
        "http://example.com?a=%C3%A9&b=x+y&b=2" ∧
      sampleRequest.UrlPath = "http://example.com" :=
  ⟨((C10_UrlPath ((sampleRequest.SetQueryParam "b" ["x y", "2"]).SetQueryParam "a" ["é"])).2.1
      (by decide)).trans (by decide),
    (C10_UrlPath sampleRequest).1 (by decide)⟩

/-- A request `http.NewRequest` returns carries the body it was given. -/
theorem NewRequest_body (lib : Lib) (method urlStr : String) (body : Option Bytes) (q : http.Request)
    (h : (http.NewRequest lib method urlStr body).1 = some q) : q.Body = body := by
  unfold http.NewRequest at h
  split at h
  · cases h
  · simp only [Option.some.injEq] at h
    subst h
    rfl

/-- When the library reports no error, `http.NewRequest` returns the request and a nil error. -/
theorem NewRequest_ok (lib : Lib) (method urlStr : String) (body : Option Bytes)
    (h : lib.httpNewRequestErr method urlStr = none) :
    http.NewRequest lib method urlStr body = (some ⟨method, urlStr, body⟩, none) := by
  simp [http.NewRequest, h]

/-- Claim C1: for a request with a non-empty body, `parseBody` hands the body bytes verbatim
to `http.NewRequest` as the payload, so every request it returns carries exactly these bytes,
whatever the files map and the form params hold; when `isJSON` is set, the only change to the
receiver is that `Content-Type` becomes the one-element list `["application/json"]`. -/
theorem C1_parseBody_body_verbatim (lib : Lib) (boundary : String) (r : request) (hb : r.body ≠ []) :
    ∃ res, r.parseBody lib boundary = some res ∧
      (res.req, res.err) = http.NewRequest lib r.method r.UrlPath (some r.body) ∧
      (∀ q, res.req = some q → q.Body = some r.body) ∧
      (lib.httpNewRequestErr r.method r.UrlPath = none →
        res.req = some ⟨r.method, r.UrlPath, some r.body⟩ ∧ res.err = none) ∧
      (r.isJSON = true →
        res.this = { r with headers := r.headers.insert "Content-Type" ["application/json"] } ∧
        res.this.headers.lookup "Content-Type" = some ["application/json"]) ∧
      (∀ (formParams : GoMap (List String)) (files : GoMap formFile),
        ∃ res2, ({ r with formParams := formParams, files := files } : request).parseBody lib boundary
            = some res2 ∧ res2.req = res.req ∧ res2.err = res.err) := by
  have hlen : r.body.length > 0 := List.length_pos.mpr hb
  by_cases hj : r.isJSON = true
  · refine ⟨⟨{ r with headers := r.headers.insert "Content-Type" ["application/json"] },
      (http.NewRequest lib r.method r.UrlPath (some r.body)).1,
      (http.NewRequest lib r.method r.UrlPath (some r.body)).2⟩, ?_, rfl, ?_, ?_, ?_, ?_⟩
    · simp only [request.parseBody, if_pos hlen, if_pos hj]
      rfl
    · intro q hq
      exact NewRequest_body lib _ _ _ q hq
    · intro hok
      simp only [NewRequest_ok lib _ _ _ hok, and_self]
    · intro _
      exact ⟨rfl, AList.lookup_insert _⟩
    · intro formParams files
      refine ⟨⟨{ r with formParams := formParams, files := files,
                        headers := r.headers.insert "Content-Type" ["application/json"] },
        (http.NewRequest lib r.method r.UrlPath (some r.body)).1,
        (http.NewRequest lib r.method r.UrlPath (some r.body)).2⟩, ?_, rfl, rfl⟩
      simp only [request.parseBody, if_pos hlen, if_pos hj]
      rfl
  · refine ⟨⟨r, (http.NewRequest lib r.method r.UrlPath (some r.body)).1,
      (http.NewRequest lib r.method r.UrlPath (some r.body)).2⟩, ?_, rfl, ?_, ?_, ?_, ?_⟩
    · simp only [request.parseBody, if_pos hlen, if_neg hj]
    · intro q hq
      exact NewRequest_body lib _ _ _ q hq
    · intro hok
      simp only [NewRequest_ok lib _ _ _ hok, and_self]
    · intro h
      exact absurd h hj
    · intro formParams files
      refine ⟨⟨{ r with formParams := formParams, files := files },
        (http.NewRequest lib r.method r.UrlPath (some r.body)).1,
        (http.NewRequest lib r.method r.UrlPath (some r.body)).2⟩, ?_, rfl, rfl⟩
      simp only [request.parseBody, if_pos hlen, if_neg hj]
      rfl

/-- Claim C1 for `SetJSON` with the two-byte body of an empty JSON object and no other body
source: the content type is `application/json` and the payload is these two bytes. -/
theorem C1_witness :
    ∃ res, (sampleRequest.SetJSON "\x7b\x7d").parseBody goLib "boundary" = some res ∧
      res.this.headers.lookup "Content-Type" = some ["application/json"] ∧
      res.req = some ⟨"POST", "http://example.com", some [123, 125]⟩ ∧ res.err = none := by
  obtain ⟨res, h, _, _, hok, hjson, _⟩ :=
    C1_parseBody_body_verbatim goLib "boundary" (sampleRequest.SetJSON "\x7b\x7d") (by decide)
  exact ⟨res, h, (hjson rfl).2, (hok rfl).1, (hok rfl).2⟩

/-- Claim C2: for a request with an empty body and an empty files map, `parseBody` sets
`Content-Type` to `application/x-www-form-urlencoded` and hands `http.NewRequest` the
form-urlencoding of all form params with all their values (keys in sorted order, the values
of a key in their stored order); with no form params the payload is empty. -/
theorem C2_parseBody_urlencoded (lib : Lib) (boundary : String) (r : request)
    (hb : r.body = []) (hf : r.files.entries = []) :
    ∃ res, r.parseBody lib boundary = some res ∧
      res.this =
        { r with headers := r.headers.insert "Content-Type" ["application/x-www-form-urlencoded"] } ∧
      res.this.headers.lookup "Content-Type" = some ["application/x-www-form-urlencoded"] ∧
      (res.req, res.err) =
        http.NewRequest lib r.method r.UrlPath (some (bytesOf (formUrlencode r.formParams))) ∧
      (∀ q, res.req = some q → q.Body = some (bytesOf (formUrlencode r.formParams))) ∧
      (lib.httpNewRequestErr r.method r.UrlPath = none →
        res.req = some ⟨r.method, r.UrlPath, some (bytesOf (formUrlencode r.formParams))⟩ ∧
        res.err = none) ∧
      (r.formParams.entries = [] → bytesOf (formUrlencode r.formParams) = []) ∧
      (url.sortStrings r.formParams.keys).Sorted url.strLe ∧
      (url.sortStrings r.formParams.keys).Perm r.formParams.keys := by
  refine ⟨⟨{ r with headers := r.headers.insert "Content-Type" ["application/x-www-form-urlencoded"] },
      (http.NewRequest lib r.method r.UrlPath (some (bytesOf (formUrlencode r.formParams)))).1,
      (http.NewRequest lib r.method r.UrlPath (some (bytesOf (formUrlencode r.formParams)))).2⟩,
      ?_, rfl, AList.lookup_insert _, rfl, ?_, ?_, ?_, url.sortStrings_sorted _,
      url.sortStrings_perm _⟩
  · simp only [request.parseBody, hb, hf, List.length_nil, gt_iff_lt, lt_self_iff_false, if_false,
      Encode_parseParams]
    rfl
  · intro q hq
    exact NewRequest_body lib _ _ _ q hq
  · intro hok
    simp only [NewRequest_ok lib _ _ _ hok, and_self]
  · intro he
    have hk : r.formParams.keys = [] := by simp [AList.keys, he, List.keys]
    simp only [formUrlencode, hk]
    rfl

/-- Claim C2 on a sample request with the form params `b = [x y, 2]` and `a = [1]`. -/
theorem C2_witness :
    ∃ res, ((sampleRequest.SetFormParam "b" ["x y", "2"]).SetFormParam "a" ["1"]).parseBody goLib
        "boundary" = some res ∧
      res.this.headers.lookup "Content-Type" = some ["application/x-www-form-urlencoded"] ∧
      res.req = some ⟨"POST", "http://example.com", some (bytesOf "a=1&b=x+y&b=2")⟩ := by
  obtain ⟨res, h, _, hct, _, _, hok, _, _, _⟩ :=
    C2_parseBody_urlencoded goLib "boundary"
      ((sampleRequest.SetFormParam "b" ["x y", "2"]).SetFormParam "a" ["1"]) rfl rfl
  refine ⟨res, h, hct, ?_⟩
  rw [(hok rfl).1]
  decide

/-- The field loop writes the first value of every entry after the parts already written,
and panics exactly when an entry has no value. -/
theorem writeFields_eq (l : List (Σ _ : String, List String)) (w : multipart.Writer) :
    writeFields w l =
      (firstValueFields l).map (fun ps => ({ w with parts := w.parts ++ ps }, none)) := by
  induction l generalizing w with
  | nil => simp [writeFields, firstValueFields]
  | cons hd tl ih =>
    obtain ⟨k, vs⟩ := hd
    cases vs with
    | nil => simp [writeFields, firstValueFields]
    | cons v0 vs =>
      simp only [writeFields, firstValueFields, multipart.Writer.WriteField]
      rw [ih]
      cases firstValueFields tl <;> simp

/-- The file loop writes one part for every entry after the parts already written. -/
theorem writeFiles_eq (l : List (Σ _ : String, formFile)) (w : multipart.Writer) :
    writeFiles w l = ({ w with parts := w.parts ++ fileParts l }, none) := by
  induction l generalizing w with
  | nil => simp [writeFiles, fileParts]
  | cons hd tl ih =>
    obtain ⟨k, f⟩ := hd
    simp only [writeFiles, multipart.Writer.CreateFormFile]
    rw [ih]
    simp [fileParts]

/-- The result of `parseBody`: it panics exactly when `bodyPayload` is `none`, and otherwise
leaves the headers `bodyHeaders` and returns what `http.NewRequest` returns for the method,
`UrlPath()` and the payload. -/
theorem parseBody_eq (lib : Lib) (boundary : String) (r : request) :
    r.parseBody lib boundary =
      (bodyPayload lib boundary r).map (fun payload =>
        ⟨{ r with headers := bodyHeaders boundary r },
          (http.NewRequest lib r.method r.UrlPath (some payload)).1,
          (http.NewRequest lib r.method r.UrlPath (some payload)).2⟩) := by
  unfold request.parseBody bodyPayload bodyHeaders
  by_cases hb : r.body.length > 0
  · by_cases hj : r.isJSON = true
    · simp only [if_pos hb, if_pos hj, Option.map_some']
      rfl
    · simp only [if_pos hb, if_neg hj, Option.map_some']
  · by_cases hf : r.files.entries.length > 0
    · simp only [if_neg hb, if_pos hf, writeFields_eq, multipart.NewWriter]
      cases firstValueFields r.formParams.entries with
      | none => rfl
      | some fields =>
        simp only [Option.map_some', writeFiles_eq, multipart.Writer.Close, List.nil_append]
        rfl
    · simp only [if_neg hb, if_neg hf, Option.map_some', Encode_parseParams]
      rfl

/-- Claim C11, as the code has it: `AddFile` leaves the request unchanged when the field name
is empty, when the file name is empty, and when the content is a nil slice; with both names
non-empty and a non-nil content, a zero-length one included, it sets `files[field]` to the
file name and the content, overwriting an earlier entry, and changes nothing else. -/
theorem C11_AddFile (r : request) (fieldname filename : String) :
    (∀ data, fieldname = "" → r.AddFile fieldname filename data = r) ∧
    (∀ data, filename = "" → r.AddFile fieldname filename data = r) ∧
    r.AddFile fieldname filename none = r ∧
    (∀ d, fieldname ≠ "" → filename ≠ "" →
      r.AddFile fieldname filename (some d) =
        { r with files := r.files.insert fieldname ⟨filename, d⟩ } ∧
      (r.AddFile fieldname filename (some d)).files.lookup fieldname = some ⟨filename, d⟩ ∧
      (∀ k, k ≠ fieldname →
        (r.AddFile fieldname filename (some d)).files.lookup k = r.files.lookup k)) := by
  refine ⟨?_, ?_, rfl, ?_⟩
  · intro data h
    cases data <;> simp [request.AddFile, h]
  · intro data h
    cases data <;> simp [request.AddFile, h]
  · intro d h1 h2
    have h : r.AddFile fieldname filename (some d) =
        { r with files := r.files.insert fieldname ⟨filename, d⟩ } := by
      simp [request.AddFile, h1, h2]
    rw [h]
    exact ⟨rfl, AList.lookup_insert _, fun k hk => AList.lookup_insert_ne hk⟩

/-- Claim C11 as stated fails: `AddFile` with a zero-length, non-nil content changes the
files map. -/
theorem C11_counterexample :
    sampleRequest.AddFile "f" "x.txt" (some []) ≠ sampleRequest ∧
    (sampleRequest.AddFile "f" "x.txt" (some [])).files.lookup "f" = some ⟨"x.txt", []⟩ ∧
    sampleRequest.files.lookup "f" = none := by
  refine ⟨?_, by decide, by decide⟩
  intro h
  have h2 := congrArg (fun r : request => r.files.lookup "f") h
  revert h2
  decide

/-- Claim C12: for a request with a non-empty body and `isJSON` false, `parseBody` hands the
body verbatim to `http.NewRequest` as the payload and leaves the request, its headers map
included, exactly as it was. -/
theorem C12_parseBody_raw_keeps_headers (lib : Lib) (boundary : String) (r : request)
    (hb : r.body ≠ []) (hj : r.isJSON = false) :
    ∃ res, r.parseBody lib boundary = some res ∧
      res.this = r ∧ res.this.headers = r.headers ∧
      (∀ k, res.this.headers.lookup k = r.headers.lookup k) ∧
      (res.req, res.err) = http.NewRequest lib r.method r.UrlPath (some r.body) ∧
      (∀ q, res.req = some q → q.Body = some r.body) ∧
      (lib.httpNewRequestErr r.method r.UrlPath = none →
        res.req = some ⟨r.method, r.UrlPath, some r.body⟩ ∧ res.err = none) := by
  have hlen : r.body.length > 0 := List.length_pos.mpr hb
  have hj2 : ¬ r.isJSON = true := by simp [hj]
  refine ⟨⟨r, (http.NewRequest lib r.method r.UrlPath (some r.body)).1,
    (http.NewRequest lib r.method r.UrlPath (some r.body)).2⟩, ?_, rfl, rfl, fun _ => rfl, rfl, ?_, ?_⟩
  · simp only [request.parseBody, if_pos hlen, if_neg hj2]
  · intro q hq
    exact NewRequest_body lib _ _ _ q hq
  · intro hok
    simp only [NewRequest_ok lib _ _ _ hok, and_self]

/-- Claim C12 on a sample request with the raw body `[1, 2]` and a caller-set header. -/
theorem C12_witness :
    ∃ res, ((sampleRequest.SetHeader "X" ["1"]).SetRawBody [1, 2]).parseBody goLib "boundary" = some res ∧
      res.this.headers.entries = [⟨"X", ["1"]⟩] ∧
      res.req = some ⟨"POST", "http://example.com", some [1, 2]⟩ := by
  obtain ⟨res, h, _, hh, _, _, _, hok⟩ :=
    C12_parseBody_raw_keeps_headers goLib "boundary"
      ((sampleRequest.SetHeader "X" ["1"]).SetRawBody [1, 2]) (by decide) rfl
  exact ⟨res, h, by rw [hh]; decide, (hok rfl).1⟩

/-- Claim C13: two requests that differ in the method only take the same branch of
`parseBody`: both panic or neither does, they are left with the same headers, and
`http.NewRequest` is handed the same payload; a `GET` request with form params and no body
or files is handed the urlencoded form params as its payload, not a nil body. -/
theorem C13_method_does_not_gate (lib : Lib) (boundary : String) (r : request) (method : String) :
    ((r.parseBody lib boundary).isSome =
      (({ r with method := method } : request).parseBody lib boundary).isSome) ∧
    (∀ res1 res2, r.parseBody lib boundary = some res1 →
      ({ r with method := method } : request).parseBody lib boundary = some res2 →
      res1.this.headers = res2.this.headers ∧
      res1.this.headers.lookup "Content-Type" = res2.this.headers.lookup "Content-Type" ∧
      (∃ payload, bodyPayload lib boundary r = some payload ∧
        (res1.req, res1.err) = http.NewRequest lib r.method r.UrlPath (some payload) ∧
        (res2.req, res2.err) = http.NewRequest lib method r.UrlPath (some payload)) ∧
      (∀ q1 q2, res1.req = some q1 → res2.req = some q2 → q1.Body = q2.Body ∧ q1.URL = q2.URL)) ∧
    (r.body = [] → r.files.entries = [] →
      ∃ res, ({ r with method := "GET" } : request).parseBody lib boundary = some res ∧
        (res.req, res.err) =
          http.NewRequest lib "GET" r.UrlPath (some (bytesOf (formUrlencode r.formParams))) ∧
        res.this.headers.lookup "Content-Type" = some ["application/x-www-form-urlencoded"]) := by
  have hp : bodyPayload lib boundary ({ r with method := method } : request) =
      bodyPayload lib boundary r := rfl
  refine ⟨?_, ?_, ?_⟩
  · rw [parseBody_eq, parseBody_eq, hp]
    cases bodyPayload lib boundary r <;> rfl
  · intro res1 res2 h1 h2
    rw [parseBody_eq] at h1 h2
    rw [hp] at h2
    cases hpl : bodyPayload lib boundary r with
    | none => rw [hpl] at h1; cases h1
    | some payload =>
      rw [hpl] at h1 h2
      simp only [Option.map_some', Option.some.injEq] at h1 h2
      subst h1
      subst h2
      refine ⟨rfl, rfl, ⟨payload, rfl, rfl, rfl⟩, ?_⟩
      intro q1 q2 hq1 hq2
      have hu : ({ r with method := method } : request).UrlPath = r.UrlPath := rfl
      simp only [hu] at hq2
      have e1 := NewRequest_body lib _ _ _ q1 hq1
      have e2 := NewRequest_body lib _ _ _ q2 hq2
      refine ⟨e1.trans e2.symm, ?_⟩
      simp only [http.NewRequest] at hq1 hq2
      split at hq1
      · cases hq1
      · split at hq2
        · cases hq2
        · simp only [Option.some.injEq] at hq1 hq2
          subst hq1
          subst hq2
          rfl
  · intro hb hf
    rw [parseBody_eq]
    have hpl : bodyPayload lib boundary ({ r with method := "GET" } : request) =
        some (bytesOf (formUrlencode r.formParams)) := by
      simp [bodyPayload, hb, hf]
    rw [hpl]
    refine ⟨_, rfl, rfl, ?_⟩
    simp [bodyHeaders, hb, hf, AList.lookup_insert]

/-- Claim C13 on a sample `GET` request with the form param `a=1`: the payload is `a=1`. -/
theorem C13_witness :
    ∃ res, (({ sampleRequest with method := "GET" } : request).SetFormParam "a" ["1"]).parseBody goLib
        "boundary" = some res ∧
      res.req = some ⟨"GET", "http://example.com", some (bytesOf "a=1")⟩ := by
  obtain ⟨res, h, hr, _⟩ :=
    (C13_method_does_not_gate goLib "boundary" (sampleRequest.SetFormParam "a" ["1"]) "GET").2.2 rfl rfl
  refine ⟨res, h, ?_⟩
  have := congrArg Prod.fst hr
  simp only at this
  rw [this]
  decide

/-- When every entry has a value, the field loop writes one field for every entry. -/
theorem firstValueFields_eq (l : List (Σ _ : String, List String)) (h : ∀ kv ∈ l, kv.2 ≠ []) :
    firstValueFields l = some (l.map fieldPart) := by
  induction l with
  | nil => rfl
  | cons hd tl ih =>
    obtain ⟨k, vs⟩ := hd
    cases vs with
    | nil => exact absurd rfl (h ⟨k, []⟩ (List.mem_cons_self _ _))
    | cons v0 vs =>
      simp only [firstValueFields, ih (fun kv hkv => h kv (List.mem_cons_of_mem _ hkv))]
      rfl

/-- An entry without a value makes the field loop panic. -/
theorem firstValueFields_none (l : List (Σ _ : String, List String)) (kv : Σ _ : String, List String)
    (hkv : kv ∈ l) (he : kv.2 = []) : firstValueFields l = none := by
  induction l with
  | nil => cases hkv
  | cons hd tl ih =>
    obtain ⟨k, vs⟩ := hd
    cases vs with
    | nil => rfl
    | cons v0 vs =>
      have hmem : kv ∈ tl := by
        rcases List.mem_cons.mp hkv with h | h
        · subst h; cases he
        · exact h
      simp [firstValueFields, ih hmem]

/-- Entries of a map, seen through lookups: no key has an empty list. -/
theorem noEmptyList_entries (m : GoMap (List String)) (h : url.noEmptyList m) :
    ∀ kv ∈ m.entries, kv.2 ≠ [] := by
  intro kv hkv
  obtain ⟨k, vs⟩ := kv
  exact h k vs (AList.mem_lookup_iff.mpr hkv)

/-- Claim C15: for a request with an empty body and a non-empty files map whose form params
all have a value, `parseBody` hands `http.NewRequest` the multipart body of exactly these
parts: one text field for each form-param key, carrying the first value of the key only, and
one file part for each files entry, with the stored file name and content; `Content-Type`
is set to the form-data content type of the writer, which names the boundary. -/
theorem C15_parseBody_multipart (lib : Lib) (boundary : String) (r : request)
    (hb : r.body = []) (hf : r.files.entries ≠ []) (hne : url.noEmptyList r.formParams) :
    ∃ res, r.parseBody lib boundary = some res ∧
      (res.req, res.err) = http.NewRequest lib r.method r.UrlPath
        (some (lib.multipartBytes boundary
          (r.formParams.entries.map fieldPart ++ fileParts r.files.entries))) ∧
      (r.formParams.entries.map fieldPart ++ fileParts r.files.entries).Nodup ∧
      (∀ k v, multipart.Part.field k v ∈ r.formParams.entries.map fieldPart ++ fileParts r.files.entries ↔
        ∃ rest, r.formParams.lookup k = some (v :: rest)) ∧
      (∀ k filename data,
        multipart.Part.file k filename data ∈
            r.formParams.entries.map fieldPart ++ fileParts r.files.entries ↔
          r.files.lookup k = some ⟨filename, data⟩) ∧
      res.this =
        { r with
          headers := r.headers.insert "Content-Type" [(multipart.NewWriter boundary).FormDataContentType] } ∧
      (∃ b, (b = boundary ∨ b = "\x22" ++ boundary ++ "\x22") ∧
        res.this.headers.lookup "Content-Type" = some ["multipart/form-data; boundary=" ++ b]) := by
  have hflen : r.files.entries.length > 0 := List.length_pos.mpr hf
  have hent := noEmptyList_entries r.formParams hne
  have hpl : bodyPayload lib boundary r = some (lib.multipartBytes boundary
      (r.formParams.entries.map fieldPart ++ fileParts r.files.entries)) := by
    simp only [bodyPayload, hb, List.length_nil, gt_iff_lt, lt_self_iff_false, if_false, if_pos hflen,
      firstValueFields_eq _ hent, Option.map_some']
  have hhd : bodyHeaders boundary r =
      r.headers.insert "Content-Type" [(multipart.NewWriter boundary).FormDataContentType] := by
    simp only [bodyHeaders, hb, List.length_nil, gt_iff_lt, lt_self_iff_false, if_false, if_pos hflen]
  refine ⟨_, by rw [parseBody_eq, hpl]; rfl, rfl, ?_, ?_, ?_, by simp only [hhd], ?_⟩
  · rw [List.nodup_append]
    refine ⟨?_, ?_, ?_⟩
    · apply List.Nodup.map_on _ r.formParams.nodupKeys.nodup
      intro x hx y hy hxy
      apply r.formParams.nodupKeys.eq_of_fst_eq hx hy
      simp only [fieldPart, multipart.Part.field.injEq] at hxy
      exact hxy.1
    · apply List.Nodup.map_on _ r.files.nodupKeys.nodup
      intro x hx y hy hxy
      apply r.files.nodupKeys.eq_of_fst_eq hx hy
      simp only [multipart.Part.file.injEq] at hxy
      exact hxy.1
    · intro p hp1 hp2
      simp only [List.mem_map, fieldPart] at hp1
      simp only [fileParts, List.mem_map] at hp2
      obtain ⟨x, _, rfl⟩ := hp1
      obtain ⟨y, _, hy⟩ := hp2
      cases hy
  · intro k v
    simp only [List.mem_append, List.mem_map, fieldPart, fileParts, multipart.Part.field.injEq,
      reduceCtorEq, and_false, exists_false, or_false]
    constructor
    · rintro ⟨⟨k2, vs⟩, hmem, rfl, rfl⟩
      cases vs with
      | nil => exact absurd rfl (hent _ hmem)
      | cons v0 rest => exact ⟨rest, AList.mem_lookup_iff.mpr hmem⟩
    · rintro ⟨rest, hl⟩
      exact ⟨⟨k, v :: rest⟩, AList.mem_lookup_iff.mp hl, rfl, rfl⟩
  · intro k filename data
    simp only [List.mem_append, List.mem_map, fieldPart, fileParts, multipart.Part.file.injEq,
      reduceCtorEq, and_false, exists_false, false_or]
    constructor
    · rintro ⟨⟨k2, f⟩, hmem, rfl, rfl, rfl⟩
      exact AList.mem_lookup_iff.mpr hmem
    · intro hl
      exact ⟨⟨k, ⟨filename, data⟩⟩, AList.mem_lookup_iff.mp hl, rfl, rfl, rfl⟩
  · simp only [hhd, AList.lookup_insert, multipart.Writer.FormDataContentType, multipart.NewWriter]
    by_cases hq : (boundary.data.any (fun c => multipart.tspecials.contains c)) = true
    · exact ⟨"\x22" ++ boundary ++ "\x22", Or.inr rfl, by simp only [hq, if_true]⟩
    · exact ⟨boundary, Or.inl rfl, by simp only [hq, if_false]; rfl⟩

/-- Claim C15 on a sample request with one file and the form param `a = [1, 2]`: the parts are
the text field `a=1` and the file, and the content type names the boundary. -/
theorem C15_witness :
    ∃ res, ((sampleRequest.SetFormParam "a" ["1", "2"]).AddFile "f" "x.txt" (some [65])).parseBody goLib
        "XYZ" = some res ∧
      res.this.headers.lookup "Content-Type" = some ["multipart/form-data; boundary=XYZ"] ∧
      res.req = some ⟨"POST", "http://example.com",
        some (multipart.encode "XYZ" [.field "a" "1", .file "f" "x.txt" [65]])⟩ := by
  obtain ⟨res, h, hr, _, _, _, ht, _⟩ :=
    C15_parseBody_multipart goLib "XYZ"
      ((sampleRequest.SetFormParam "a" ["1", "2"]).AddFile "f" "x.txt" (some [65])) rfl (by decide)
      (by
        intro k vs hl
        have hk : k = "a" := by
          by_contra hne
          have : ((sampleRequest.SetFormParam "a" ["1", "2"]).AddFile "f" "x.txt" (some [65])).formParams.lookup k
              = none := AList.lookup_insert_ne hne
          rw [this] at hl
          cases hl
        subst hk
        have : ((sampleRequest.SetFormParam "a" ["1", "2"]).AddFile "f" "x.txt" (some [65])).formParams.lookup "a"
            = some ["1", "2"] := by decide
        rw [this] at hl
        cases hl
        decide)
  refine ⟨res, h, ?_, ?_⟩
  · rw [ht]; decide
  · have := congrArg Prod.fst hr
    simp only at this
    rw [this]
    rfl

/-- Storing a non-empty list keeps every list of the map non-empty. -/
theorem noEmptyList_insert (m : GoMap (List String)) (k : String) (vs : List String) (hvs : vs ≠ [])
    (h : url.noEmptyList m) : url.noEmptyList (m.insert k vs) := by
  intro k2 vs2 hl
  by_cases hk : k2 = k
  · subst hk
    rw [AList.lookup_insert] at hl
    cases hl
    exact hvs
  · rw [AList.lookup_insert_ne hk] at hl
    exact h k2 vs2 hl

/-- Deleting a key keeps every list of the map non-empty. -/
theorem noEmptyList_erase (m : GoMap (List String)) (k : String) (h : url.noEmptyList m) :
    url.noEmptyList (m.erase k) := by
  intro k2 vs2 hl
  by_cases hk : k2 = k
  · subst hk
    rw [AList.lookup_erase] at hl
    cases hl
  · rw [AList.lookup_erase_ne hk] at hl
    exact h k2 vs2 hl

/-- The empty map has no empty list. -/
theorem noEmptyList_empty : url.noEmptyList (∅ : GoMap (List String)) := by
  intro k vs hl
  simp at hl

/-- The copy loop keeps every list of the map non-empty. -/
theorem noEmptyList_copyMap (m : GoMap (List String)) (h : url.noEmptyList m) :
    url.noEmptyList (copyMap m) := by
  intro k vs hl
  rw [copyMap_lookup] at hl
  exact h k vs hl

/-- The headers `parseBody` leaves have no empty list when the headers before have none. -/
theorem noEmptyList_bodyHeaders (boundary : String) (r : request) (h : url.noEmptyList r.headers) :
    url.noEmptyList (bodyHeaders boundary r) := by
  unfold bodyHeaders
  split
  · split
    · exact noEmptyList_insert _ _ _ (by simp) h
    · exact h
  · split
    · exact noEmptyList_insert _ _ _ (by simp) h
    · exact noEmptyList_insert _ _ _ (by simp) h

/-- What one call does to the three parameter maps of a request. -/
theorem Op.run_maps (lib : Lib) (op : Op) (r r2 : request) (h : op.run lib r = some r2) :
    (url.noEmptyList r.headers → url.noEmptyList r2.headers) ∧
    (url.noEmptyList r.queryParams → url.noEmptyList r2.queryParams) ∧
    (url.noEmptyList r.formParams → url.noEmptyList r2.formParams) := by
  cases op with
  | SetHeader key values =>
    simp only [Op.run, Option.some.injEq] at h
    subst h
    unfold request.SetHeader
    split
    · rename_i hlen
      exact ⟨noEmptyList_insert _ _ _ (List.length_pos.mp hlen), id, id⟩
    · exact ⟨noEmptyList_erase _ _, id, id⟩
  | SetQueryParam key values =>
    simp only [Op.run, Option.some.injEq] at h
    subst h
    unfold request.SetQueryParam
    split
    · rename_i hlen
      exact ⟨id, noEmptyList_insert _ _ _ (List.length_pos.mp hlen), id⟩
    · exact ⟨id, noEmptyList_erase _ _, id⟩
  | SetFormParam key values =>
    simp only [Op.run, Option.some.injEq] at h
    subst h
    unfold request.SetFormParam
    split
    · rename_i hlen
      exact ⟨id, id, noEmptyList_insert _ _ _ (List.length_pos.mp hlen)⟩
    · exact ⟨id, id, noEmptyList_erase _ _⟩
  | AddFile fieldname filename data =>
    simp only [Op.run, Option.some.injEq] at h
    subst h
    unfold request.AddFile
    split
    · split
      · exact ⟨id, id, id⟩
      · exact ⟨id, id, id⟩
    · exact ⟨id, id, id⟩
  | SetJSON json =>
    simp only [Op.run, Option.some.injEq] at h
    subst h
    exact ⟨id, id, id⟩
  | SetRawBody body =>
    simp only [Op.run, Option.some.injEq] at h
    subst h
    exact ⟨id, id, id⟩
  | parseBody boundary =>
    simp only [Op.run, parseBody_eq] at h
    cases hp : bodyPayload lib boundary r with
    | none => rw [hp] at h; cases h
    | some payload =>
      rw [hp] at h
      simp only [Option.map_some', Option.some.injEq] at h
      subst h
      exact ⟨noEmptyList_bodyHeaders boundary r, id, id⟩

/-- What a sequence of calls does to the three parameter maps of a request. -/
theorem runOps_maps (lib : Lib) (ops : List Op) (r r2 : request) (h : runOps lib ops r = some r2) :
    (url.noEmptyList r.headers → url.noEmptyList r2.headers) ∧
    (url.noEmptyList r.queryParams → url.noEmptyList r2.queryParams) ∧
    (url.noEmptyList r.formParams → url.noEmptyList r2.formParams) := by
  induction ops generalizing r with
  | nil =>
    simp only [runOps, Option.some.injEq] at h
    subst h
    exact ⟨id, id, id⟩
  | cons op ops ih =>
    simp only [runOps] at h
    cases h1 : op.run lib r with
    | none => rw [h1] at h; cases h
    | some r1 =>
      rw [h1] at h
      simp only [Option.some_bind] at h
      have a := Op.run_maps lib op r r1 h1
      have b := ih r1 h
      exact ⟨fun x => b.1 (a.1 x), fun x => b.2.1 (a.2.1 x), fun x => b.2.2 (a.2.2 x)⟩

/-- The headers and the form params of a reachable request have no empty list. -/
theorem Reachable.headers_formParams (lib : Lib) (r : request) (hr : Reachable lib r) :
    url.noEmptyList r.headers ∧ url.noEmptyList r.formParams := by
  obtain ⟨method, urlPath, s, r0, ops, h0, hops⟩ := hr
  obtain ⟨_, hh, hf, _⟩ := newRequest_method lib method urlPath s r0 h0
  have hm := runOps_maps lib ops r0 r hops
  exact ⟨hm.1 (by rw [hh]; exact noEmptyList_empty), hm.2.2 (by rw [hf]; exact noEmptyList_empty)⟩

/-- The query params of a fresh request are a copy of the query map of the parsed URL. -/
theorem newRequest_queryParams (lib : Lib) (method urlPath : String) (s : session) (r : request)
    (h : newRequest lib method urlPath s = .ok r) : ∃ U, r.queryParams = copyMap (lib.urlQuery U) := by
  unfold newRequest at h
  split at h
  · cases h
  · rename_i U _
    simp only [Except.ok.injEq] at h
    subst h
    exact ⟨U, rfl⟩

/-- Claim C14: in every request that `newRequest` followed by any sequence of `SetHeader`,
`SetQueryParam`, `SetFormParam`, `AddFile`, `SetJSON`, `SetRawBody` and `parseBody` calls
produces, every key of `headers`, `queryParams` and `formParams` maps to a non-empty list,
provided the URL parser reports at least one value for every query key it reports. -/
theorem C14_no_empty_value_list (lib : Lib) (hq : ∀ U, url.noEmptyList (lib.urlQuery U))
    (r : request) (hr : Reachable lib r) :
    url.noEmptyList r.headers ∧ url.noEmptyList r.queryParams ∧ url.noEmptyList r.formParams := by
  have hhf := Reachable.headers_formParams lib r hr
  obtain ⟨method, urlPath, s, r0, ops, h0, hops⟩ := hr
  obtain ⟨U, hU⟩ := newRequest_queryParams lib method urlPath s r0 h0
  have hm := runOps_maps lib ops r0 r hops
  exact ⟨hhf.1, hm.2.1 (by rw [hU]; exact noEmptyList_copyMap _ (hq U)), hhf.2⟩

/-- The reference `parseQuery` stores no empty list. -/
theorem url.parseQuery_noEmptyList (pieces : List (List Char)) (m : url.Values)
    (h : url.noEmptyList m) : url.noEmptyList (url.parseQuery m pieces) := by
  induction pieces generalizing m with
  | nil => exact h
  | cons piece rest ih =>
    unfold url.parseQuery
    split
    · exact ih m h
    · apply ih
      exact noEmptyList_insert _ _ _ (by simp) h

/-- The reference `URL.Query` reports at least one value for every key it reports. -/
theorem goLib_urlQuery_noEmptyList (U : url.URL) : url.noEmptyList (goLib.urlQuery U) :=
  url.parseQuery_noEmptyList _ ∅ noEmptyList_empty

/-- The sample request is what `newRequest` returns for `http://example.com`. -/
theorem sampleRequest_fresh :
    newRequest goLib "POST" "http://example.com" sessionWithoutCookies = .ok sampleRequest := rfl

/-- The request `sampleQueryRequest` is what `newRequest` returns. -/
theorem sampleQueryRequest_fresh :
    newRequest goLib "GET" "http://example.com/?q=1&q=2" NewSession = .ok sampleQueryRequest := rfl

/-- Claim C14 on the request built from `http://example.com/?q=1&q=2` by three calls. -/
theorem C14_witness :
    url.noEmptyList
      (((sampleQueryRequest.SetHeader "A" ["x"]).SetQueryParam "b" ["y"]).SetFormParam "f" []).queryParams ∧
    url.noEmptyList
      (((sampleQueryRequest.SetHeader "A" ["x"]).SetQueryParam "b" ["y"]).SetFormParam "f" []).headers :=
  ⟨(C14_no_empty_value_list goLib goLib_urlQuery_noEmptyList
      (((sampleQueryRequest.SetHeader "A" ["x"]).SetQueryParam "b" ["y"]).SetFormParam "f" [])
      ⟨"GET", "http://example.com/?q=1&q=2", NewSession, sampleQueryRequest,
        [.SetHeader "A" ["x"], .SetQueryParam "b" ["y"], .SetFormParam "f" []],
        sampleQueryRequest_fresh, rfl⟩).2.1,
   (C14_no_empty_value_list goLib goLib_urlQuery_noEmptyList
      (((sampleQueryRequest.SetHeader "A" ["x"]).SetQueryParam "b" ["y"]).SetFormParam "f" [])
      ⟨"GET", "http://example.com/?q=1&q=2", NewSession, sampleQueryRequest,
        [.SetHeader "A" ["x"], .SetQueryParam "b" ["y"], .SetFormParam "f" []],
        sampleQueryRequest_fresh, rfl⟩).1⟩

/-- Claim C19: for every request that `newRequest` followed by any sequence of calls produces,
every form-param entry has a first value, so the expression `values[0]` of the multipart
branch is defined and `parseBody` does not panic, whatever boundary is drawn. -/
theorem C19_values_index_defined (lib : Lib) (r : request) (hr : Reachable lib r) :
    (∀ kv ∈ r.formParams.entries, ∃ v0 rest, kv.2 = v0 :: rest) ∧
    (∀ w, writeFields w r.formParams.entries ≠ none) ∧
    (∀ boundary, ∃ res, r.parseBody lib boundary = some res) := by
  have hne := (Reachable.headers_formParams lib r hr).2
  have hent := noEmptyList_entries r.formParams hne
  have hfv := firstValueFields_eq _ hent
  refine ⟨?_, ?_, ?_⟩
  · intro kv hkv
    cases hvs : kv.2 with
    | nil => exact absurd hvs (hent kv hkv)
    | cons v0 rest => exact ⟨v0, rest, rfl⟩
  · intro w
    rw [writeFields_eq, hfv]
    simp
  · intro boundary
    rw [parseBody_eq]
    have hp : ∃ payload, bodyPayload lib boundary r = some payload := by
      unfold bodyPayload
      split
      · exact ⟨_, rfl⟩
      · split
        · rw [hfv]; exact ⟨_, rfl⟩
        · exact ⟨_, rfl⟩
    obtain ⟨payload, hp⟩ := hp
    rw [hp]
    exact ⟨_, rfl⟩

/-- Claim C19 on the sample request after `SetFormParam`, a deletion and `AddFile`. -/
theorem C19_witness :
    ∃ res, (((sampleRequest.SetFormParam "a" ["1", "2"]).SetFormParam "b" []).AddFile "f" "x.txt"
      (some [65])).parseBody goLib "XYZ" = some res :=
  (C19_values_index_defined goLib
    (((sampleRequest.SetFormParam "a" ["1", "2"]).SetFormParam "b" []).AddFile "f" "x.txt" (some [65]))
    ⟨"POST", "http://example.com", sessionWithoutCookies, sampleRequest,
      [.SetFormParam "a" ["1", "2"], .SetFormParam "b" [], .AddFile "f" "x.txt" (some [65])],
      sampleRequest_fresh, rfl⟩).2.2 "XYZ"

/-- Claim C18: whenever `parseURL` succeeds, the scheme of the URL it returns is `http` or
`https`, so the base URL `newRequest` stores begins with `http://` or `https://`. -/
theorem C18_scheme_http_or_https (lib : Lib) (urlPath : String) (U : url.URL)
    (h : parseURL lib urlPath = .ok U) :
    (U.Scheme = "http" ∨ U.Scheme = "https") ∧
    (∀ method s r, newRequest lib method urlPath s = .ok r →
      r.URL = "http://" ++ (U.Host ++ U.Path) ∨ r.URL = "https://" ++ (U.Host ++ U.Path)) := by
  have hs : U.Scheme = "http" ∨ U.Scheme = "https" := by
    unfold parseURL at h
    split at h
    · cases h
    · rename_i U1 _
      split at h
      · simp only at h
        split at h
        · cases h
        · rename_i U2 _
          split at h
          · cases h
          · rename_i hs2
            simp only [Except.ok.injEq] at h
            subst h
            by_cases h1 : U2.Scheme = "http"
            · exact Or.inl h1
            · by_cases h2 : U2.Scheme = "https"
              · exact Or.inr h2
              · exact absurd ⟨h1, h2⟩ hs2
      · rename_i hs1
        simp only [Except.ok.injEq] at h
        subst h
        by_cases h1 : U1.Scheme = "http"
        · exact Or.inl h1
        · by_cases h2 : U1.Scheme = "https"
          · exact Or.inr h2
          · exact absurd ⟨h1, h2⟩ hs1
  refine ⟨hs, ?_⟩
  intro method s r hr
  simp only [newRequest, h, Except.ok.injEq] at hr
  subst hr
  rcases hs with hs | hs
  · left
    simp only [hs, String.append_assoc]
    rfl
  · right
    simp only [hs, String.append_assoc]
    rfl

/-- Claim C18 at `example.com/a`: the retry gives the scheme `http` and the base URL
`http://example.com/a`. -/
theorem C18_witness :
    parseURL goLib "example.com/a" = .ok ⟨"http", "", "example.com", "/a", "", ""⟩ ∧
    ((url.URL.mk "http" "" "example.com" "/a" "" "").Scheme = "http" ∨
      (url.URL.mk "http" "" "example.com" "/a" "" "").Scheme = "https") ∧
    (newRequest goLib "GET" "example.com/a" NewSession).toOption.map request.URL =
      some "http://example.com/a" :=
  ⟨rfl, (C18_scheme_http_or_https goLib "example.com/a" ⟨"http", "", "example.com", "/a", "", ""⟩ rfl).1,
    by decide⟩

/-- After the override loop every visited name occurs among the cookies. -/
theorem setCookiesLoop_has (visit : List (Σ _ : String, String)) (cookies : List http.Cookie) :
    (∀ name, hasCookie cookies name = true → hasCookie (setCookiesLoop cookies visit) name = true) ∧
    (∀ kv ∈ visit, hasCookie (setCookiesLoop cookies visit) kv.1 = true) := by
  induction visit generalizing cookies with
  | nil => exact ⟨fun _ h => h, fun _ h => by cases h⟩
  | cons hd tl ih =>
    have hstep : setCookiesLoop cookies (hd :: tl) =
        setCookiesLoop (setCookiesStep cookies hd.1 hd.2) tl := rfl
    have hmono : ∀ name, hasCookie cookies name = true →
        hasCookie (setCookiesStep cookies hd.1 hd.2) name = true := by
      intro name h
      unfold setCookiesStep
      simp only []
      split
      · simp only [hasCookie, List.any_append, Bool.or_eq_true] at h ⊢
        exact Or.inl h
      · exact h
    have hhd : hasCookie (setCookiesStep cookies hd.1 hd.2) hd.1 = true := by
      unfold setCookiesStep
      simp only []
      split
      · simp [hasCookie]
      · rename_i hf
        simpa [hasCookie] using hf
    rw [hstep]
    refine ⟨fun name h => (ih _).1 name (hmono name h), ?_⟩
    intro kv hkv
    rcases List.mem_cons.mp hkv with h | h
    · subst h
      exact (ih _).1 _ hhd
    · exact (ih _).2 kv h

/-- The override loop appends nothing when every visited name occurs among the cookies. -/
theorem setCookiesLoop_fixed (visit : List (Σ _ : String, String)) (cookies : List http.Cookie)
    (h : ∀ kv ∈ visit, hasCookie cookies kv.1 = true) : setCookiesLoop cookies visit = cookies := by
  induction visit with
  | nil => rfl
  | cons hd tl ih =>
    have hstep : setCookiesLoop cookies (hd :: tl) =
        setCookiesLoop (setCookiesStep cookies hd.1 hd.2) tl := rfl
    have h1 : setCookiesStep cookies hd.1 hd.2 = cookies := by
      have := h hd (List.mem_cons_self _ _)
      unfold hasCookie at this
      simp [setCookiesStep, this]
    rw [hstep, h1]
    exact ih (fun kv hkv => h kv (List.mem_cons_of_mem _ hkv))

/-- Claim C20: merging the overrides `o` into the result of merging `o` into the fetched list
`c` gives that result again, in whatever orders the two passes visit the overrides. -/
theorem C20_merge_idempotent (o : GoMap String) (c : List http.Cookie)
    (visit1 visit2 : List (Σ _ : String, String))
    (h1 : visit1.Perm o.entries) (h2 : visit2.Perm o.entries) :
    setCookiesLoop (setCookiesLoop c visit1) visit2 = setCookiesLoop c visit1 := by
  apply setCookiesLoop_fixed
  intro kv hkv
  exact (setCookiesLoop_has visit1 c).2 kv (h1.mem_iff.mpr (h2.mem_iff.mp hkv))

/-- Claim C20 with `a=1` fetched and the overrides `a=2`, `b=3`, visited in both orders. -/
theorem C20_witness :
    setCookiesLoop (setCookiesLoop [{ Name := "a", Value := "1" }] [⟨"b", "3"⟩, ⟨"a", "2"⟩])
        [⟨"a", "2"⟩, ⟨"b", "3"⟩] =
      [{ Name := "a", Value := "1" }, { Name := "b", Value := "3" }] :=
  (C20_merge_idempotent sampleSession.cookies [{ Name := "a", Value := "1" }]
    [⟨"b", "3"⟩, ⟨"a", "2"⟩] [⟨"a", "2"⟩, ⟨"b", "3"⟩] (List.Perm.refl _)
    (List.Perm.swap _ _ _)).trans (by decide)

/-- The inner loop of `parseHeaders` appends the values to the list of the canonical key. -/
theorem Header_Add_foldl_getD (canonicalKey : String → String) (key : String) (values : List String)
    (h : http.Header) (c : String) :
    ((values.foldl (fun h value => http.Header.Add canonicalKey h key value) h).lookup c).getD [] =
      if c = canonicalKey key then (h.lookup c).getD [] ++ values else (h.lookup c).getD [] := by
  have := Add_foldl_getD (canonicalKey key) values h c
  by_cases hc : c = canonicalKey key
  · subst hc
    simpa [http.Header.Add, url.Values.Add] using this
  · simpa [http.Header.Add, url.Values.Add, hc] using this

/-- The inner loop of `parseHeaders` stores no empty list. -/
theorem Header_Add_foldl_noEmptyList (canonicalKey : String → String) (key : String)
    (values : List String) (h : http.Header) (hh : url.noEmptyList h) :
    url.noEmptyList (values.foldl (fun h value => http.Header.Add canonicalKey h key value) h) :=
  Add_foldl_noEmptyList (canonicalKey key) values h hh

/-- The loops of `parseHeaders` collect, under each canonical key, the values of the entries
with that canonical key, in iteration order. -/
theorem parseHeaders_fold_getD (canonicalKey : String → String)
    (l : List (Σ _ : String, List String)) (acc : http.Header) (c : String) :
    ((l.foldl (fun h kv => kv.2.foldl (fun h value => http.Header.Add canonicalKey h kv.1 value) h)
        acc).lookup c).getD [] =
      (acc.lookup c).getD [] ++
        (l.filter (fun kv => decide (canonicalKey kv.1 = c))).flatMap (fun kv => kv.2) := by
  induction l generalizing acc with
  | nil => simp
  | cons hd tl ih =>
    rw [List.foldl_cons, ih, Header_Add_foldl_getD, List.filter_cons]
    by_cases hc : canonicalKey hd.1 = c
    · subst hc
      simp [List.flatMap_cons, List.append_assoc]
    · have hc2 : ¬ c = canonicalKey hd.1 := fun h => hc h.symm
      simp [hc, hc2]

/-- The loops of `parseHeaders` store no empty list. -/
theorem parseHeaders_fold_noEmptyList (canonicalKey : String → String)
    (l : List (Σ _ : String, List String)) (acc : http.Header) (hacc : url.noEmptyList acc) :
    url.noEmptyList
      (l.foldl (fun h kv => kv.2.foldl (fun h value => http.Header.Add canonicalKey h kv.1 value) h)
        acc) := by
  induction l generalizing acc with
  | nil => exact hacc
  | cons hd tl ih =>
    rw [List.foldl_cons]
    exact ih _ (Header_Add_foldl_noEmptyList _ _ _ _ hacc)

/-- A map without empty lists has a key exactly when the key has a value. -/
theorem noEmptyList_lookup (m : GoMap (List String)) (h : url.noEmptyList m) (c : String) :
    m.lookup c = if (m.lookup c).getD [] = [] then none else some ((m.lookup c).getD []) := by
  cases hl : m.lookup c with
  | none => simp
  | some vs => simp [h c vs hl]

/-- The lookup in a header map after one `Add`. -/
theorem Header_Add_lookup (canonicalKey : String → String) (h : http.Header) (key value c : String) :
    (http.Header.Add canonicalKey h key value).lookup c =
      if c = canonicalKey key then some ((h.lookup c).getD [] ++ [value]) else h.lookup c := by
  unfold http.Header.Add
  by_cases hc : c = canonicalKey key
  · subst hc
    simp [AList.lookup_insert]
  · simp [hc, AList.lookup_insert_ne hc]

/-- One default of `parseHeaders`: the header `K` gets the value `d` when the map has no
entry for it, and the map is left as it is otherwise. -/
theorem defaultStep_lookup (canonicalKey : String → String) (h : http.Header) (K d : String)
    (hK : canonicalKey K = K) (c : String) :
    (if (!(h.lookup K).isSome) = true then http.Header.Add canonicalKey h K d else h).lookup c =
      if c = K then some (match h.lookup K with
        | some vs => vs
        | none => [d])
      else h.lookup c := by
  cases hl : h.lookup K with
  | none =>
    simp only [Option.isSome_none, Bool.not_false, if_true, Header_Add_lookup, hK]
    by_cases hc : c = K
    · subst hc; simp [hl]
    · simp [hc]
  | some vs =>
    simp only [Option.isSome_some, Bool.not_true, Bool.false_eq_true, if_false]
    by_cases hc : c = K
    · subst hc; simp [hl]
    · simp [hc]

/-- Claim C16: `parseHeaders` keeps every header value of the builder: under every canonical
key the result holds the values of the builder's keys of that canonical form, each key's values
together and in order; the only additions are `Accept: */*` when the builder holds no value
under `Accept`, and `User-Agent: go-requests/1.0` when it holds none under `User-Agent`; values
the builder holds under these two names are neither overwritten nor extended. -/
theorem C16_parseHeaders_defaults (canonicalKey : String → String)
    (hA : canonicalKey "Accept" = "Accept") (hU : canonicalKey "User-Agent" = "User-Agent")
    (headers : GoMap (List String)) :
    (∀ c, c ≠ "Accept" → c ≠ "User-Agent" →
      (parseHeaders canonicalKey headers).lookup c =
        if headerValues canonicalKey headers c = [] then none
        else some (headerValues canonicalKey headers c)) ∧
    (parseHeaders canonicalKey headers).lookup "Accept" =
      some (if headerValues canonicalKey headers "Accept" = [] then ["*/*"]
        else headerValues canonicalKey headers "Accept") ∧
    (parseHeaders canonicalKey headers).lookup "User-Agent" =
      some (if headerValues canonicalKey headers "User-Agent" = [] then ["go-requests/1.0"]
        else headerValues canonicalKey headers "User-Agent") ∧
    (∀ k vs, headers.lookup k = some vs → vs <:+: headerValues canonicalKey headers (canonicalKey k)) := by
  -- the header map after the two loops
  have hfold : ∀ c, (headers.entries.foldl
      (fun h kv => kv.2.foldl (fun h value => http.Header.Add canonicalKey h kv.1 value) h)
      (∅ : http.Header)).lookup c =
        if headerValues canonicalKey headers c = [] then none
        else some (headerValues canonicalKey headers c) := by
    intro c
    have hne := parseHeaders_fold_noEmptyList canonicalKey headers.entries ∅ noEmptyList_empty
    have hg := parseHeaders_fold_getD canonicalKey headers.entries ∅ c
    simp only [AList.lookup_empty, Option.getD_none, List.nil_append] at hg
    rw [noEmptyList_lookup _ hne c, hg]
    rfl
  have hne : ("User-Agent" : String) ≠ "Accept" := by decide
  have hne2 : ("Accept" : String) ≠ "User-Agent" := by decide
  have hv : "go-requests/" ++ Version = "go-requests/1.0" := by decide
  have hall : ∀ c, (parseHeaders canonicalKey headers).lookup c =
      if c = "User-Agent" then
        some (if headerValues canonicalKey headers c = [] then ["go-requests/1.0"]
          else headerValues canonicalKey headers c)
      else if c = "Accept" then
        some (if headerValues canonicalKey headers c = [] then ["*/*"]
          else headerValues canonicalKey headers c)
      else if headerValues canonicalKey headers c = [] then none
      else some (headerValues canonicalKey headers c) := by
    intro c
    unfold parseHeaders
    simp only []
    rw [defaultStep_lookup canonicalKey _ "User-Agent" _ hU, defaultStep_lookup canonicalKey _ "Accept" _ hA,
      defaultStep_lookup canonicalKey _ "Accept" _ hA, hfold c, hfold "Accept", hfold "User-Agent", hv]
    by_cases hcU : c = "User-Agent"
    · subst hcU
      simp only [if_true, if_neg hne]
      by_cases hv0 : headerValues canonicalKey headers "User-Agent" = [] <;> simp [hv0]
    · by_cases hcA : c = "Accept"
      · subst hcA
        simp only [if_true, if_neg hne2]
        by_cases hv0 : headerValues canonicalKey headers "Accept" = [] <;> simp [hv0]
      · simp only [if_neg hcU, if_neg hcA]
  refine ⟨?_, ?_, ?_, ?_⟩
  · intro c hcA hcU
    rw [hall c, if_neg hcU, if_neg hcA]
  · rw [hall "Accept", if_neg hne2, if_pos rfl]
  · rw [hall "User-Agent", if_pos rfl]
  · intro k vs hl
    have hmem : (⟨k, vs⟩ : Σ _ : String, List String) ∈
        headers.entries.filter (fun kv => decide (canonicalKey kv.1 = canonicalKey k)) := by
      rw [List.mem_filter]
      exact ⟨AList.mem_lookup_iff.mp hl, by simp⟩
    unfold headerValues
    obtain ⟨l1, l2, hsplit⟩ := List.append_of_mem hmem
    rw [hsplit]
    simp only [List.flatMap_append, List.flatMap_cons]
    exact ⟨l1.flatMap (fun kv => kv.2), l2.flatMap (fun kv => kv.2), by simp [List.append_assoc]⟩

/-- Claim C16 with the reference canonical form, on a builder that holds `accept: a, b` and
`X-Y: 1`: the values of `accept` are kept under `Accept`, and only `User-Agent` gets its default. -/
theorem C16_witness :
    (parseHeaders textproto.CanonicalMIMEHeaderKey sampleHeaders).lookup "Accept" = some ["a", "b"] ∧
    (parseHeaders textproto.CanonicalMIMEHeaderKey sampleHeaders).lookup "User-Agent" =
      some ["go-requests/1.0"] ∧
    (parseHeaders textproto.CanonicalMIMEHeaderKey sampleHeaders).lookup "X-Y" = some ["1"] := by
  have hA : textproto.CanonicalMIMEHeaderKey "Accept" = "Accept" := by decide
  have hU : textproto.CanonicalMIMEHeaderKey "User-Agent" = "User-Agent" := by decide
  have h := C16_parseHeaders_defaults textproto.CanonicalMIMEHeaderKey hA hU sampleHeaders
  have h1 : headerValues textproto.CanonicalMIMEHeaderKey sampleHeaders "Accept" = ["a", "b"] := by decide
  have h2 : headerValues textproto.CanonicalMIMEHeaderKey sampleHeaders "User-Agent" = [] := by decide
  have h3 : headerValues textproto.CanonicalMIMEHeaderKey sampleHeaders "X-Y" = ["1"] := by decide
  refine ⟨?_, ?_, ?_⟩
  · rw [h.2.1, h1]; rfl
  · rw [h.2.2.1, h2]; rfl
  · rw [h.1 "X-Y" (by decide) (by decide), h3]; rfl

/-- Reading entries through the backing arrays gives, at every key, what the first entry of
the key shows. -/
theorem loadMap_lookup_entries (h : Heap) (l : List (Σ _ : String, Slice)) (k : String) :
    (l.foldr (fun kv dst => dst.insert kv.1 (h.read kv.2)) (∅ : GoMap (List String))).lookup k =
      (l.dlookup k).map h.read := by
  induction l with
  | nil => rfl
  | cons hd tl ih =>
    obtain ⟨a, s⟩ := hd
    rw [List.foldr_cons]
    by_cases hk : k = a
    · subst hk
      rw [AList.lookup_insert, List.dlookup_cons_eq]
      rfl
    · have hd : List.dlookup k (⟨a, s⟩ :: tl) = List.dlookup k tl :=
        List.dlookup_cons_ne tl ⟨a, s⟩ hk
      rw [AList.lookup_insert_ne hk, ih, hd]

/-- A map of slices, read through the backing arrays, has the values its slices show. -/
theorem loadMap_lookup (h : Heap) (m : GoMap Slice) (k : String) :
    (loadMap h m).lookup k = (m.lookup k).map h.read :=
  loadMap_lookup_entries h m.entries k

/-- The copy loop of the accessors stores, for every key, the slice the builder holds. -/
theorem copySlices_lookup (m : GoMap Slice) (k : String) : (copySlices m).lookup k = m.lookup k := by
  have h := foldl_insert_lookup m.entries m.nodupKeys ∅ k
  unfold copySlices
  have hall : (fun (dst : GoMap Slice) (kv : Σ _ : String, Slice) => dst.insert kv.1 kv.2.all) =
      (fun dst kv => dst.insert kv.1 kv.2) := rfl
  rw [hall, h]
  cases hl : List.dlookup k m.entries <;> simp [AList.lookup, hl]

/-- At the time of the call, `Headers()` on slices shows what `Headers()` on values returns, and
so do `QueryParams()` and `FormParams()`. -/
theorem sliceRequest.accessors_load (r : sliceRequest) (k : String) :
    (loadMap r.heap r.Headers).lookup k = r.load.Headers.lookup k ∧
    (loadMap r.heap r.QueryParams).lookup k = r.load.QueryParams.lookup k ∧
    (loadMap r.heap r.FormParams).lookup k = r.load.FormParams.lookup k := by
  simp only [loadMap_lookup, sliceRequest.Headers, sliceRequest.QueryParams, sliceRequest.FormParams,
    copySlices_lookup, request.Headers, request.QueryParams, request.FormParams, copyMap_lookup,
    sliceRequest.load, and_self]

/-- Every slice a returned map holds is the slice the builder holds, over the same backing array. -/
theorem sliceRequest.accessors_share (r : sliceRequest) (k : String) :
    r.Headers.lookup k = r.headers.lookup k ∧ r.QueryParams.lookup k = r.queryParams.lookup k ∧
    r.FormParams.lookup k = r.queryParams.lookup k :=
  ⟨copySlices_lookup _ k, copySlices_lookup _ k, copySlices_lookup _ k⟩

/-- Claim C17, evaluated on the code: after `SetQueryParam("q", "1")` and `SetHeader("X", "a")`
the caller takes the maps `QueryParams()` and `Headers()` return and overwrites element 0 of
the list of `q` by `2` and of the list of `X` by `b`.  Before that the accessors and
`UrlPath()` show `1` and `a`; afterwards a new call of `QueryParams()` shows `q = [2]`,
`UrlPath()` ends in `?q=2`, and a new call of `Headers()` shows `X = [b]`. -/
theorem C17_returned_lists_share_storage :
    (loadMap aliasRequest.heap aliasRequest.QueryParams).lookup "q" = some ["1"] ∧
    aliasRequest.load.UrlPath = "http://example.com?q=1" ∧
    (loadMap aliasRequest.heap aliasRequest.Headers).lookup "X" = some ["a"] ∧
    (loadMap (aliasRequest.callerStore (sliceAt aliasRequest.QueryParams "q") 0 "2").heap
      (aliasRequest.callerStore (sliceAt aliasRequest.QueryParams "q") 0 "2").QueryParams).lookup "q" =
        some ["2"] ∧
    (aliasRequest.callerStore (sliceAt aliasRequest.QueryParams "q") 0 "2").load.UrlPath =
      "http://example.com?q=2" ∧
    (loadMap (aliasRequest.callerStore (sliceAt aliasRequest.Headers "X") 0 "b").heap
      (aliasRequest.callerStore (sliceAt aliasRequest.Headers "X") 0 "b").Headers).lookup "X" =
        some ["b"] ∧
    (aliasRequest.callerStore (sliceAt aliasRequest.Headers "X") 0 "b").load.headers.lookup "X" =
      some ["b"] := by
  decide

end requests
